import Mathlib

/-!
Verification development for the pixelKanban repository.

The definitions below are a shallow embedding of the GitHub sync adapter
(src/js/dragDrop.js, classes GitHubAPI / GitHubBoards / GitHubBoardsUI),
the user store (src/js/userManager.js) and the task store
(src/js/kanban.js).  JavaScript strings are modelled as Lean `String`
(worked on through their `List Char` data), JavaScript dynamically typed
JSON values as the inductive type `JVal`, and the platform functions
`JSON.stringify` / `JSON.parse` as an executable encoder and a fuel-based
recursive-descent parser restricted to integer numerics (the application
only ever serialises integer ids; floating point payloads are outside the
model).  Remote (GitHub REST) interaction is modelled as a state monad over
the remote repository state together with an oracle that decides, per
request, whether the request succeeds or fails with a given HTTP status.
-/

/-! ### Character classes used by the JavaScript regexes -/

/-- Decimal digit, the regex class backslash-d. -/
def isDigitC (c : Char) : Bool := 48 ≤ c.toNat && c.toNat ≤ 57

/-- Word character, the regex class backslash-w: letters, digits, underscore. -/
def isWordC (c : Char) : Bool :=
  isDigitC c || (65 ≤ c.toNat && c.toNat ≤ 90) || (97 ≤ c.toNat && c.toNat ≤ 122)
    || c.toNat = 95

/-- Character class of the due-date regex: digits and the hyphen. -/
def isDigitDashC (c : Char) : Bool := isDigitC c || c.toNat = 45

/-- JavaScript line terminators, the characters NOT matched by the regex dot. -/
def isLineTermC (c : Char) : Bool :=
  c.toNat = 10 || c.toNat = 13 || c.toNat = 0x2028 || c.toNat = 0x2029

/-- White space for JavaScript String.prototype.trim (WhiteSpace and
LineTerminator productions). -/
def isJsSpaceC (c : Char) : Bool :=
  c.toNat = 9 || c.toNat = 10 || c.toNat = 11 || c.toNat = 12 || c.toNat = 13
    || c.toNat = 32 || c.toNat = 0xa0 || c.toNat = 0x1680
    || (0x2000 ≤ c.toNat && c.toNat ≤ 0x200a)
    || c.toNat = 0x2028 || c.toNat = 0x2029 || c.toNat = 0x202f
    || c.toNat = 0x205f || c.toNat = 0x3000 || c.toNat = 0xfeff

/-- JSON white space accepted between tokens by JSON.parse. -/
def isJsonWsC (c : Char) : Bool :=
  c.toNat = 32 || c.toNat = 9 || c.toNat = 10 || c.toNat = 13

/-! ### List-of-characters scanning primitives (regex semantics) -/

/-- Does `pat` occur as a prefix of `cs`? -/
def prefixAt (pat cs : List Char) : Bool :=
  decide (pat <+: cs)

/-- Split `cs` at the first occurrence of the literal pattern `pat`,
returning the text before the occurrence and the text after it.
This is the semantics of a leftmost literal regex match. -/
def splitFirst (pat : List Char) : List Char → Option (List Char × List Char)
  | [] => if pat = [] then some ([], []) else none
  | c :: cs =>
    if prefixAt pat (c :: cs) then some ([], (c :: cs).drop pat.length)
    else match splitFirst pat cs with
      | some (before, after) => some (c :: before, after)
      | none => none

/-- JavaScript String.prototype.trim. -/
def jsTrim (cs : List Char) : List Char :=
  ((cs.dropWhile isJsSpaceC).reverse.dropWhile isJsSpaceC).reverse

/-! ### The fallback regexes of parseTaskBody (dragDrop.js lines 964-972)

The body is scanned for the literal text of the pattern followed by at
least one character of the capture class; the capture is the maximal run
of class characters (greedy plus quantifier).  Scanning position by
position from the left gives exactly the leftmost-match semantics of
String.prototype.match. -/

/-- First capture of a regex of shape literal text followed by a
plus-quantified character class. -/
def findCapture (lit : List Char) (cls : Char → Bool) : List Char → Option (List Char)
  | [] => none
  | c :: cs =>
    if prefixAt lit (c :: cs) then
      match (c :: cs).drop lit.length with
      | d :: ds => if cls d then some (d :: ds.takeWhile cls) else findCapture lit cls cs
      | [] => findCapture lit cls cs
    else findCapture lit cls cs

/-- Literal part of the priority fallback pattern. -/
def priorityLit : List Char := ("**Priority:** ").data

/-- Literal part of the due-date fallback pattern. -/
def dueDateLit : List Char := ("**Due Date:** ").data

/-- Capture of the first match of the priority fallback regex. -/
def priorityCapture (cs : List Char) : Option (List Char) :=
  findCapture priorityLit isWordC cs

/-- Capture of the first match of the due-date fallback regex. -/
def dueDateCapture (cs : List Char) : Option (List Char) :=
  findCapture dueDateLit isDigitDashC cs

/-! ### Removal of HTML comments and bold markup (dragDrop.js line 971) -/

/-- Opening of an HTML comment. -/
def commentOpen : List Char := ("<!--").data

/-- Closing of an HTML comment. -/
def commentClose : List Char := ("-->").data

/-- One (non-global) replacement of the comment regex by the empty string:
remove the leftmost, shortest occurrence of an HTML comment. -/
def removeFirstComment (cs : List Char) : List Char :=
  match splitFirst commentOpen cs with
  | none => cs
  | some (before, rest) =>
    match splitFirst commentClose rest with
    | none => cs
    | some (_, after) => before ++ after

/-- Given text that directly follows an opening double star, consume up to
and including the closing double star of the bold regex.  The dot of the
regex does not cross line terminators.  Returns the remaining text after
the closing markup when the lazy match closes. -/
def boldClose : List Char → Option (List Char)
  | [] => none
  | c :: cs =>
    if prefixAt (("**").data) (c :: cs) then some ((c :: cs).drop 2)
    else if isLineTermC c then none
    else boldClose cs

/-- Global replacement of the bold regex by the empty string, with fuel
(the fuel only needs to exceed the length of the text). -/
def stripBoldAux : Nat → List Char → List Char
  | 0, cs => cs
  | fuel + 1, cs =>
    match cs with
    | [] => []
    | c :: rest =>
      if prefixAt (("**").data) (c :: rest) then
        match boldClose rest.tail with
        | some after => stripBoldAux fuel after
        | none => c :: stripBoldAux fuel rest
      else c :: stripBoldAux fuel rest

/-- Global replacement of the bold regex by the empty string. -/
def stripBold (cs : List Char) : List Char := stripBoldAux cs.length cs

/-- Description produced by the fallback branch of parseTaskBody: the body
with the first HTML comment removed, all bold markup removed, trimmed. -/
def fallbackDescription (cs : List Char) : List Char :=
  jsTrim (stripBold (removeFirstComment cs))

/-! ### Status and label mapping (dragDrop.js lines 897-917) -/

/-- JavaScript toLowerCase, restricted to its ASCII action (all label
names the adapter compares are ASCII). -/
def jsToLowerChar (c : Char) : Char :=
  if 65 ≤ c.toNat && c.toNat ≤ 90 then Char.ofNat (c.toNat + 32) else c

/-- JavaScript String.prototype.toLowerCase on an ASCII-cased string. -/
def jsToLower (s : String) : String := String.mk (s.data.map jsToLowerChar)

/-- A GitHub label as returned by the REST API (the adapter only reads the
name). -/
structure GHLabel where
  name : String
  color : String := ""
deriving DecidableEq, Inhabited

/-- GitHubBoards.getStatusLabel: kanban status to GitHub label name. -/
def getStatusLabel (status : String) : String :=
  if status = ("backlog") then ("backlog")
  else if status = ("todo") then ("to do")
  else if status = ("in-progress") then ("in progress")
  else if status = ("done") then ("done")
  else ("backlog")

/-- GitHubBoards.getKanbanStatus: kanban status derived from the set of
GitHub labels on an issue. -/
def getKanbanStatus (labels : List GHLabel) : String :=
  let labelNames := labels.map (fun l => jsToLower l.name)
  if labelNames.contains ("done") then ("done")
  else if labelNames.contains ("in progress")then ("in-progress")
  else if labelNames.contains ("to do") then ("todo")
  else ("backlog")

/-- First entry of a precedence table whose label name is present. -/
def firstPresentStatus (names : List String) : List (String × String) → Option String
  | [] => none
  | p :: ps => if names.contains p.1 then some p.2 else firstPresentStatus names ps

/-- Modelled from the spec (section 4.1): the status is the
highest-precedence status whose label name is present, under the fixed
precedence done, then in-progress, then todo, with backlog as the default.
Stated as a search through the precedence table. -/
def statusOfLabelsSpec (labels : List GHLabel) : String :=
  let names := labels.map (fun l => jsToLower l.name)
  let precedence : List (String × String) :=
    [(("done"), ("done")), (("in progress"), ("in-progress")), (("to do"), ("todo"))]
  (firstPresentStatus names precedence).getD ("backlog")

/-- The four recognized status label names, in the order pushBoard ensures
them (dragDrop.js line 751). -/
def statusLabels : List String := [("backlog"), ("to do"), ("in progress"), ("done")]

/-! ### JSON values

JavaScript values produced by JSON.parse are modelled by `JVal`.  Numbers
are restricted to integers: the application only serialises integer ids
and timestamps-as-strings, and floating point is outside the model (a
numeric payload with a fraction or exponent, or with leading zeros, is
not accepted by the modelled parser). -/

inductive JVal where
  | jnull : JVal
  | jbool (b : Bool) : JVal
  | jnum (n : Int) : JVal
  | jstr (s : String) : JVal
  | jarr (elems : List JVal) : JVal
  | jobj (fields : List (String × JVal)) : JVal

/-- Lowercase hexadecimal digit, as produced by JSON.stringify in
backslash-u escapes. -/
def hexChar (n : Nat) : Char :=
  if n < 10 then Char.ofNat (48 + n) else Char.ofNat (87 + n)

/-- JSON.stringify escaping of one character of a string value. -/
def escChar (c : Char) : List Char :=
  if c = '"' then ['\\', '"']
  else if c = '\\' then ['\\', '\\']
  else if c.toNat = 8 then ['\\', 'b']
  else if c.toNat = 9 then ['\\', 't']
  else if c.toNat = 10 then ['\\', 'n']
  else if c.toNat = 12 then ['\\', 'f']
  else if c.toNat = 13 then ['\\', 'r']
  else if c.toNat < 32 then ['\\', 'u', '0', '0', hexChar (c.toNat / 16), hexChar (c.toNat % 16)]
  else [c]

/-- JSON.stringify escaping of the characters of a string value. -/
def escBody (cs : List Char) : List Char := (cs.map escChar).flatten

/-- JSON.stringify of a string value, quotes included. -/
def encStrChars (s : String) : List Char := '"' :: (escBody s.data ++ ['"'])

/-- Decimal digits of a natural number, most significant first.  The fuel
argument only needs to exceed the number of digits; it is set to `n + 1`
by `natDigs`. -/
def natDigsAux : Nat → Nat → List Char → List Char
  | 0, _, acc => acc
  | fuel + 1, n, acc =>
    if n < 10 then Char.ofNat (48 + n) :: acc
    else natDigsAux fuel (n / 10) (Char.ofNat (48 + n % 10) :: acc)

/-- Decimal representation of a natural number. -/
def natDigs (n : Nat) : List Char := natDigsAux (n + 1) n []

/-- Decimal representation of an integer, as printed by JSON.stringify. -/
def intChars (n : Int) : List Char :=
  if n < 0 then '-' :: natDigs n.natAbs else natDigs n.natAbs

/-! ### The task model (kanban.js createTask, lines 36-50) -/

/-- A task comment as created by KanbanBoard.addComment (kanban.js lines
749-755): id from Date.now(), the current user id or null, the task
assignee at creation time or null, the text, and an ISO timestamp. -/
structure Comment where
  id : Nat
  userId : Option Nat
  assigneeId : Option String
  text : String
  createdAt : String

/-- A task attachment as created by KanbanBoard.addAttachment (kanban.js
lines 505-509). -/
structure Attachment where
  type : String
  url : String
  name : String

/-- A task record of the local task store (named KTask because Task is
taken by the Lean core library). -/
structure KTask where
  id : Nat
  title : String
  description : String
  status : String
  priority : String
  assignee : String
  dueDate : String
  comments : List Comment
  attachments : List Attachment
  createdAt : String := ""
  updatedAt : String := ""

/-- A user record of the user store (userManager.js createUser, lines
229-239; the githubUsername field is populated by collaborator import or
by updateUser). -/
structure User where
  id : Nat
  name : String
  email : String := ""
  role : String := ""
  githubUsername : Option String := none

/-! ### JSON encoding of the metadata block (dragDrop.js lines 933-943)

The encoders below spell out the action of JSON.stringify on the exact
object shapes the adapter serialises, field order as in the object
literals of the source. -/

/-- JSON.stringify of null-or-number. -/
def encOptNat : Option Nat → List Char
  | none => ("null").data
  | some n => natDigs n

/-- JSON.stringify of null-or-string. -/
def encOptStr : Option String → List Char
  | none => ("null").data
  | some s => encStrChars s

/-- Elements of a JSON array, comma separated. -/
def encListAux (enc : α → List Char) : List α → List Char
  | [] => []
  | [x] => enc x
  | x :: xs => enc x ++ ',' :: encListAux enc xs

/-- JSON.stringify of an array. -/
def encList (enc : α → List Char) (xs : List α) : List Char :=
  '[' :: (encListAux enc xs ++ [']'])

/-- One key-value pair of a JSON object, as serialised by JSON.stringify. -/
def encField (k : String) (v : List Char) : List Char :=
  encStrChars k ++ ':' :: v

/-- JSON.stringify of an object with the given fields, in insertion
order. -/
def encObj (fields : List (String × List Char)) : List Char :=
  '\x7b' :: (encListAux (fun f => encField f.1 f.2) fields ++ ['\x7d'])

/-- JSON.stringify of a comment object (field order as in the object
literal of KanbanBoard.addComment). -/
def encComment (c : Comment) : List Char :=
  encObj [(("id"), natDigs c.id), (("userId"), encOptNat c.userId),
          (("assigneeId"), encOptStr c.assigneeId), (("text"), encStrChars c.text),
          (("createdAt"), encStrChars c.createdAt)]

/-- JSON.stringify of an attachment object. -/
def encAttachment (a : Attachment) : List Char :=
  encObj [(("type"), encStrChars a.type), (("url"), encStrChars a.url),
          (("name"), encStrChars a.name)]

/-- JSON.stringify of the metadata object built by formatTaskBody:
underscore-pixelKanban marker true, priority, dueDate, description,
comments, attachments, in the insertion order of the object literal. -/
def encMeta (t : KTask) : List Char :=
  encObj [(("_pixelKanban"), ("true").data),
          (("priority"), encStrChars t.priority),
          (("dueDate"), encStrChars t.dueDate),
          (("description"), encStrChars t.description),
          (("comments"), encList encComment t.comments),
          (("attachments"), encList encAttachment t.attachments)]

/-- The `JVal` denotation of a comment, as JSON.parse would return it. -/
def commentJ (c : Comment) : JVal :=
  .jobj [(("id"), .jnum c.id),
         (("userId"), match c.userId with | none => .jnull | some n => .jnum n),
         (("assigneeId"), match c.assigneeId with | none => .jnull | some s => .jstr s),
         (("text"), .jstr c.text),
         (("createdAt"), .jstr c.createdAt)]

/-- The `JVal` denotation of an attachment. -/
def attachmentJ (a : Attachment) : JVal :=
  .jobj [(("type"), .jstr a.type), (("url"), .jstr a.url), (("name"), .jstr a.name)]

/-- The `JVal` denotation of the metadata object of a task. -/
def metaJ (t : KTask) : JVal :=
  .jobj [(("_pixelKanban"), .jbool true),
         (("priority"), .jstr t.priority),
         (("dueDate"), .jstr t.dueDate),
         (("description"), .jstr t.description),
         (("comments"), .jarr (t.comments.map commentJ)),
         (("attachments"), .jarr (t.attachments.map attachmentJ))]

/-! ### formatTaskBody (dragDrop.js lines 922-946) -/

/-- The metadata marker text that opens the embedded block. -/
def markerChars : List Char := ("<!-- pixelKanban metadata:\n").data

/-- The text that closes the embedded block (as matched lazily by the
parsing regex). -/
def closeChars : List Char := ("\n-->").data

/-- Body text built before the metadata block is appended: the
description, then the bold priority line when the priority is set and is
not medium, then the bold due-date line when the due date is set. -/
def preBody (t : KTask) : List Char :=
  t.description.data
  ++ (if t.priority ≠ ("") ∧ t.priority ≠ ("medium")
      then ("\n\n**Priority:** ").data ++ t.priority.data else [])
  ++ (if t.dueDate ≠ ("") then ("\n\n**Due Date:** ").data ++ t.dueDate.data else [])

/-- GitHubBoards.formatTaskBody: the issue body pushed for a task. -/
def formatTaskBody (t : KTask) : String :=
  String.mk (preBody t ++ ('\n' :: '\n' :: markerChars) ++ encMeta t ++ closeChars)

/-! ### JSON.parse model -/

/-- JSON token white space skipping. -/
def skipWs (cs : List Char) : List Char := cs.dropWhile isJsonWsC

/-- Value of a hexadecimal digit. -/
def hexVal (c : Char) : Option Nat :=
  if 48 ≤ c.toNat && c.toNat ≤ 57 then some (c.toNat - 48)
  else if 97 ≤ c.toNat && c.toNat ≤ 102 then some (c.toNat - 87)
  else if 65 ≤ c.toNat && c.toNat ≤ 70 then some (c.toNat - 55)
  else none

/-- Parse the remainder of a JSON string literal after the opening quote,
returning the decoded characters and the text after the closing quote. -/
def parseStrBody : List Char → Option (List Char × List Char)
  | [] => none
  | '"' :: rest => some ([], rest)
  | '\\' :: '"' :: rest => (parseStrBody rest).map (fun p => ('"' :: p.1, p.2))
  | '\\' :: '\\' :: rest => (parseStrBody rest).map (fun p => ('\\' :: p.1, p.2))
  | '\\' :: '/' :: rest => (parseStrBody rest).map (fun p => ('/' :: p.1, p.2))
  | '\\' :: 'b' :: rest => (parseStrBody rest).map (fun p => (Char.ofNat 8 :: p.1, p.2))
  | '\\' :: 'f' :: rest => (parseStrBody rest).map (fun p => (Char.ofNat 12 :: p.1, p.2))
  | '\\' :: 'n' :: rest => (parseStrBody rest).map (fun p => ('\n' :: p.1, p.2))
  | '\\' :: 'r' :: rest => (parseStrBody rest).map (fun p => (Char.ofNat 13 :: p.1, p.2))
  | '\\' :: 't' :: rest => (parseStrBody rest).map (fun p => ('\t' :: p.1, p.2))
  | '\\' :: 'u' :: a :: b :: c :: d :: rest =>
    match hexVal a, hexVal b, hexVal c, hexVal d with
    | some va, some vb, some vc, some vd =>
      (parseStrBody rest).map
        (fun p => (Char.ofNat (va * 4096 + vb * 256 + vc * 16 + vd) :: p.1, p.2))
    | _, _, _, _ => none
  | '\\' :: _ => none
  | c :: rest =>
    if c.toNat < 32 then none
    else (parseStrBody rest).map (fun p => (c :: p.1, p.2))

/-- Accumulate a run of decimal digits. -/
def takeDigits : List Char → Nat → Nat × List Char
  | [], a => (a, [])
  | c :: cs, a =>
    if isDigitC c then takeDigits cs (a * 10 + (c.toNat - 48)) else (a, c :: cs)

/-- Parse a JSON natural number lexeme (no leading zeros). -/
def parseNatLex : List Char → Option (Nat × List Char)
  | [] => none
  | c :: cs =>
    if c = '0' then
      match cs with
      | d :: _ => if isDigitC d then none else some (0, cs)
      | [] => some (0, [])
    else if isDigitC c then some (takeDigits (c :: cs) 0)
    else none

/-- Parse a JSON integer (the modelled fragment of JSON numbers). -/
def parseNum : List Char → Option (Int × List Char)
  | '-' :: rest => (parseNatLex rest).map (fun p => (-(p.1 : Int), p.2))
  | rest => (parseNatLex rest).map (fun p => ((p.1 : Int), p.2))

/-- Parse the elements of a non-empty JSON array given a parser for
values; the fuel only needs to exceed the number of elements. -/
def parseListAux (pv : List Char → Option (JVal × List Char)) :
    Nat → List Char → List JVal → Option (List JVal × List Char)
  | 0, _, _ => none
  | fuel + 1, cs, acc =>
    match pv cs with
    | some (v, rest) =>
      match skipWs rest with
      | ',' :: rest2 => parseListAux pv fuel rest2 (acc ++ [v])
      | ']' :: rest2 => some (acc ++ [v], rest2)
      | _ => none
    | none => none

/-- Parse the fields of a non-empty JSON object given a parser for
values. -/
def parseFieldsAux (pv : List Char → Option (JVal × List Char)) :
    Nat → List Char → List (String × JVal) → Option (List (String × JVal) × List Char)
  | 0, _, _ => none
  | fuel + 1, cs, acc =>
    match skipWs cs with
    | '"' :: rest =>
      match parseStrBody rest with
      | some (key, rest2) =>
        match skipWs rest2 with
        | ':' :: rest3 =>
          match pv rest3 with
          | some (v, rest4) =>
            match skipWs rest4 with
            | ',' :: rest5 => parseFieldsAux pv fuel rest5 (acc ++ [(String.mk key, v)])
            | '\x7d' :: rest5 => some (acc ++ [(String.mk key, v)], rest5)
            | _ => none
          | none => none
        | _ => none
      | none => none
    | _ => none

/-- Parse one JSON value; the fuel only needs to exceed the nesting
depth. -/
def parseVal : Nat → List Char → Option (JVal × List Char)
  | 0, _ => none
  | fuel + 1, cs =>
    match skipWs cs with
    | 'n' :: 'u' :: 'l' :: 'l' :: rest => some (.jnull, rest)
    | 't' :: 'r' :: 'u' :: 'e' :: rest => some (.jbool true, rest)
    | 'f' :: 'a' :: 'l' :: 's' :: 'e' :: rest => some (.jbool false, rest)
    | '"' :: rest => (parseStrBody rest).map (fun p => (.jstr (String.mk p.1), p.2))
    | '[' :: rest =>
      match skipWs rest with
      | ']' :: rest2 => some (.jarr [], rest2)
      | _ =>
        (parseListAux (parseVal fuel) (rest.length + 1) rest []).map
          (fun p => (.jarr p.1, p.2))
    | '\x7b' :: rest =>
      match skipWs rest with
      | '\x7d' :: rest2 => some (.jobj [], rest2)
      | _ =>
        (parseFieldsAux (parseVal fuel) (rest.length + 1) rest []).map
          (fun p => (.jobj p.1, p.2))
    | rest => (parseNum rest).map (fun p => (.jnum p.1, p.2))

/-- The model of JSON.parse: parse one value, require only white space
after it. -/
def parseJ (s : String) : Option JVal :=
  match parseVal (s.length + 1) s.data with
  | some (j, rest) => if (skipWs rest).isEmpty then some j else none
  | none => none

/-! ### parseTaskBody (dragDrop.js lines 951-973) -/

/-- Capture group of the metadata block regex: the text between the first
occurrence of the marker and the first closing text after it.  (If the
first marker occurrence had no closing text after it, no later occurrence
could have one either, so this is exactly the leftmost-lazy regex
match.) -/
def metadataCapture (cs : List Char) : Option (List Char) :=
  match splitFirst markerChars cs with
  | none => none
  | some (_, rest) =>
    match splitFirst closeChars rest with
    | none => none
    | some (cap, _) => some cap

/-- Result object of the regex fallback branch of parseTaskBody. -/
def fallbackData (cs : List Char) : JVal :=
  .jobj [(("priority"),
            .jstr (match priorityCapture cs with
                   | some p => String.mk p
                   | none => ("medium"))),
         (("dueDate"),
            .jstr (match dueDateCapture cs with
                   | some d => String.mk d
                   | none => (""))),
         (("description"), .jstr (String.mk (fallbackDescription cs)))]

/-- GitHubBoards.parseTaskBody: decode an issue body.  A missing or empty
body yields the empty object; a parsable metadata block yields its JSON
value; otherwise the regex fallback applies.  The function is total: a
malformed metadata block never propagates an error. -/
def parseTaskBody (body : Option String) : JVal :=
  match body with
  | none => .jobj []
  | some b =>
    if b = ("") then .jobj []
    else
      match metadataCapture b.data with
      | some cap =>
        match parseJ (String.mk cap) with
        | some j => j
        | none => fallbackData b.data
      | none => fallbackData b.data

/-! ### JavaScript field access and truthiness on parsed values -/

/-- Property access on a parsed JSON value: JavaScript throws a TypeError
on null (modelled as the error case), yields the defined fields of
objects (later duplicate keys override earlier ones, as in JSON.parse),
and undefined (`none`) on the other values, which primitive accesses
never throw on. -/
def jGet (j : JVal) (k : String) : Except Unit (Option JVal) :=
  match j with
  | .jnull => .error ()
  | .jobj fields => .ok ((fields.reverse.find? (fun p => p.1 == k)).map (fun p => p.2))
  | _ => .ok none

/-- The value jGet yields when it does not throw. -/
def jField (j : JVal) (k : String) : Option JVal :=
  match j with
  | .jobj fields => (fields.reverse.find? (fun p => p.1 == k)).map (fun p => p.2)
  | _ => none

/-- JavaScript truthiness of a parsed JSON value. -/
def jTruthy : JVal → Bool
  | .jnull => false
  | .jbool b => b
  | .jnum n => decide (n ≠ 0)
  | .jstr s => decide (s ≠ (""))
  | .jarr _ => true
  | .jobj _ => true

/-- The JavaScript or-else idiom `x || d` applied to a possibly undefined
parsed value. -/
def jOr (v : Option JVal) (d : JVal) : JVal :=
  match v with
  | some x => if jTruthy x then x else d
  | none => d

/-- Accumulator step of takeDigits. -/
def digStep (acc : Nat) (c : Char) : Nat := acc * 10 + (c.toNat - 48)

/-- Condition that a remainder does not continue a digit run. -/
def headNotDigit (rest : List Char) : Prop :=
  ∀ c cs, rest = c :: cs → isDigitC c = false

/-! ### Parser composition lemmas -/

/-- The remainders at which an element or field value ends inside a JSON
array or object: a separator or a closing bracket follows. -/
def sepHead (r : List Char) : Prop :=
  ∃ c rs, r = c :: rs ∧ (c = ',' ∨ c = ']' ∨ c = '\x7d')

/-! ### The encoded metadata contains no control characters -/

/-- Every character of the encoded metadata has code point at least 32; in
particular the encoding contains no newline, so the lazy close pattern of
the metadata regex first matches at the appended closing text. -/
def allGe32 (cs : List Char) : Prop := ∀ d ∈ cs, 32 ≤ d.toNat

instance (cs : List Char) : Decidable (allGe32 cs) :=
  inferInstanceAs (Decidable (∀ d ∈ cs, 32 ≤ d.toNat))

/-- Concrete task used as witness for the amended CLAIM C1. -/
def tWitness : KTask :=
  { id := 1, title := ("Fix login bug"), description := ("Check the token"),
    status := ("todo"), priority := ("high"), assignee := (""),
    dueDate := ("2025-02-03"),
    comments := [{ id := 17, userId := some 2, assigneeId := none,
                   text := ("works now"), createdAt := ("2025-01-01") }],
    attachments := [{ type := ("link"), url := ("https://a.b/c"), name := ("c") }] }

/-- Concrete task whose description smuggles a metadata marker block into
the body, defeating the round trip. -/
def tBad : KTask :=
  { id := 1, title := ("x"),
    description := ("<!-- pixelKanban metadata:\nbad\n-->"),
    status := ("todo"), priority := ("medium"), assignee := (""),
    dueDate := (""), comments := [], attachments := [] }

/-! ### The remote model

GitHub REST interaction is modelled as a state monad over the remote
repository state, driven by an oracle deciding for each request (by its
position in the requests issued by the operation) whether it succeeds or
fails with an HTTP status and optional error message.  The model covers
exactly the endpoints the adapter calls; pagination of list endpoints is
not modelled (the adapter requests state=all and treats the response as
the full issue list). -/

/-- A GitHub user, as appearing in assignee lists. -/
structure GHUser where
  login : String

/-- The selected repository (GitHubAPI.selectedRepo: owner.login and
name). -/
structure Repo where
  owner : String
  name : String

/-- A GitHub issue as returned by the issues endpoint. -/
structure GHIssue where
  number : Nat
  title : String
  body : Option String
  labels : List GHLabel
  assignees : List GHUser
  pull_request : Bool
  created_at : String
  updated_at : String
  html_url : String

/-- The remote repository state. -/
structure RemoteState where
  labels : List GHLabel
  issues : List GHIssue
  nextIssueNumber : Nat
  now : String

/-- Payload of a PATCH issues request as built by pushBoard: assignees is
only present when an assignee could be resolved. -/
structure IssueUpdate where
  body : String
  labels : List String
  assignees : Option (List String)

/-- A remote request, as recorded in the trace. -/
inductive RemoteReq where
  | getIssues
  | getLabels
  | createLabel (name color : String)
  | createIssue (title body : String) (labels assignees : List String)
  | updateIssue (number : Nat) (update : IssueUpdate)

/-- Typed errors of the adapter (spec section 7: Unauthenticated,
RepositoryNotSelected, RemoteRequestFailed; the source throws Error
objects with the corresponding messages).  typeError is the JavaScript
TypeError thrown by the pull loop when parseTaskBody returns the JSON
value null and taskData.description is accessed (dragDrop.js line 849);
pullBoard's catch rethrows it unchanged. -/
inductive SyncError where
  | notConnected
  | noRepoSelected
  | remoteRequestFailed (status : Nat) (message : String)
  | typeError

/-- Outcome of one remote request, decided by the oracle. -/
inductive ReqOutcome where
  | ok
  | fail (status : Nat) (message : Option String)

/-- The oracle: outcome of the n-th request issued by the operation. -/
def Oracle := Nat → ReqOutcome

/-- Request-level state threaded through an operation. -/
structure RState where
  remote : RemoteState
  reqCount : Nat
  trace : List RemoteReq

/-- The sync monad: oracle plus state, failing with a typed error. -/
def SyncM (α : Type) := Oracle → RState → Except SyncError α × RState

/-- Result value of a monadic computation. -/
def SyncM.pure (a : α) : SyncM α := fun _ st => (.ok a, st)

/-- Sequencing with exception short-circuit, as JavaScript await. -/
def SyncM.bind (m : SyncM α) (f : α → SyncM β) : SyncM β := fun o st =>
  match m o st with
  | (.ok a, st2) => f a o st2
  | (.error e, st2) => (.error e, st2)

instance : Monad SyncM where
  pure := SyncM.pure
  bind := SyncM.bind

/-- Message of a failed request (GitHubAPI.request lines 365-367: the
message of the response body if truthy, else a generic text with the
status). -/
def errText (status : Nat) (msg : Option String) : String :=
  match msg with
  | some m => if m = ("") then ("GitHub API error: ") ++ String.mk (natDigs status) else m
  | none => ("GitHub API error: ") ++ String.mk (natDigs status)

/-- Issue one request: consult the oracle, apply the transition on
success, raise RemoteRequestFailed on a non-2xx response.  Every attempt
is recorded in the trace. -/
def mkReq (r : RemoteReq) (f : RemoteState → α × RemoteState) : SyncM α :=
  fun o st =>
    match o st.reqCount with
    | .ok =>
      (.ok (f st.remote).1,
       { remote := (f st.remote).2, reqCount := st.reqCount + 1,
         trace := st.trace ++ [r] })
    | .fail status msg =>
      (.error (.remoteRequestFailed status (errText status msg)),
       { st with reqCount := st.reqCount + 1, trace := st.trace ++ [r] })

/-- GitHubAPI.getRepoIssues: fetch all issues, pull requests filtered
out. -/
def getRepoIssuesM : SyncM (List GHIssue) :=
  mkReq .getIssues (fun rem => (rem.issues.filter (fun i => ! i.pull_request), rem))

/-- GitHubAPI.getRepoLabels. -/
def getRepoLabelsM : SyncM (List GHLabel) :=
  mkReq .getLabels (fun rem => (rem.labels, rem))

/-- GitHubAPI.createLabel. -/
def createLabelM (name color : String) : SyncM Unit :=
  mkReq (.createLabel name color)
    (fun rem => ((), { rem with labels := rem.labels ++ [⟨name, color⟩] }))

/-- A label object as attached to an issue by a write request (the color
shown by the remote is immaterial to the adapter, which reads names
only). -/
def mkLabel (n : String) : GHLabel := { name := n, color := ("") }

/-- A user object in an assignee list. -/
def mkGHUser (l : String) : GHUser := { login := l }

/-- The issue created by a POST issues request. -/
def mkIssue (rem : RemoteState) (title body : String)
    (labels assignees : List String) : GHIssue :=
  { number := rem.nextIssueNumber, title := title, body := some body,
    labels := labels.map mkLabel, assignees := assignees.map mkGHUser,
    pull_request := false, created_at := rem.now, updated_at := rem.now,
    html_url := ("") }

/-- GitHubAPI.createIssue: the remote assigns the next issue number and
stamps timestamps. -/
def createIssueM (title body : String) (labels assignees : List String) : SyncM Unit :=
  mkReq (.createIssue title body labels assignees)
    (fun rem => ((), { rem with
      issues := rem.issues ++ [mkIssue rem title body labels assignees],
      nextIssueNumber := rem.nextIssueNumber + 1 }))

/-- New assignee list of an updated issue. -/
def updatedAssignees (u : IssueUpdate) (i : GHIssue) : List GHUser :=
  match u.assignees with
  | some as => as.map mkGHUser
  | none => i.assignees

/-- Effect of a PATCH issues request on one issue. -/
def applyUpdate (u : IssueUpdate) (now : String) (i : GHIssue) : GHIssue :=
  { i with
    body := some u.body
    labels := u.labels.map mkLabel
    assignees := updatedAssignees u i
    updated_at := now }

/-- GitHubAPI.updateIssue. -/
def updateIssueM (number : Nat) (u : IssueUpdate) : SyncM Unit :=
  mkReq (.updateIssue number u)
    (fun rem => ((), { rem with
      issues := rem.issues.map
        (fun i => if i.number = number then applyUpdate u rem.now i else i) }))

/-! ### pushBoard (dragDrop.js lines 728-815) -/

/-- The label colors of config.js (keys as written there; the lookup in
pushBoard uses the label names, so only the backlog and done keys ever
match). -/
def configLabelColors : List (String × String) :=
  [(("backlog"), ("6e7681")), (("todo"), ("0e7a86")),
   (("inProgress"), ("a371f7")), (("done"), ("3fb950"))]

/-- Color chosen for a missing status label: colors of the config keyed by
the status, white as default. -/
def colorFor (status : String) : String :=
  match configLabelColors.find? (fun p => p.1 == status) with
  | some p => p.2
  | none => ("ffffff")

/-- JavaScript parseInt restricted to decimal input with optional sign
and leading white space (the hexadecimal autodetection branch is outside
the model; no caller passes 0x-prefixed ids); none models NaN. -/
def jsParseInt (s : String) : Option Int :=
  match s.data.dropWhile isJsSpaceC with
  | '-' :: c :: cs => if isDigitC c then some (-((takeDigits (c :: cs) 0).1 : Int)) else none
  | '+' :: c :: cs => if isDigitC c then some ((takeDigits (c :: cs) 0).1 : Int) else none
  | c :: cs => if isDigitC c then some ((takeDigits (c :: cs) 0).1 : Int) else none
  | [] => none

/-- UserManager.getUser: parse the id and compare loosely with the stored
numeric ids. -/
def getUserById (users : List User) (idNum : Option Int) : Option User :=
  match idNum with
  | none => none
  | some v => users.find? (fun u => decide ((u.id : Int) = v))

/-- The regex test of getAssigneeLogin: an all-digit non-empty string. -/
def allDigits (s : String) : Bool := ! s.data.isEmpty && s.data.all isDigitC

/-- GitHubBoards.getAssigneeLogin (dragDrop.js lines 978-995): a
non-numeric string is already a GitHub username; a numeric id is looked
up in the user store and must have a truthy githubUsername. -/
def getAssigneeLogin (users : List User) (assigneeId : String) : Option String :=
  if assigneeId = ("") then none
  else if ! allDigits assigneeId then some assigneeId
  else
    match getUserById users (jsParseInt assigneeId) with
    | some u =>
      match u.githubUsername with
      | some g => if g = ("") then none else some g
      | none => none
    | none => none

/-- Presence test of the first label map (lowercased names). -/
def hasLabel (labels : List GHLabel) (k : String) : Bool :=
  labels.any (fun l => jsToLower l.name == k)

/-- Lookup in the second label map: object assignment iterates the labels
in order, so a later label with the same lowercased name overrides an
earlier one. -/
def lookupLabelName (labels : List GHLabel) (k : String) : Option String :=
  (labels.reverse.find? (fun l => jsToLower l.name == k)).map (fun l => l.name)

/-- The label-creation loop of pushBoard: create each of the four status
labels missing from the snapshot of existing labels. -/
def ensureLabelsM (existingLabels : List GHLabel) : List String → SyncM Unit
  | [] => SyncM.pure ()
  | s :: rest =>
    if hasLabel existingLabels s then ensureLabelsM existingLabels rest
    else SyncM.bind (createLabelM s (colorFor s)) (fun _ => ensureLabelsM existingLabels rest)

/-- The body of the task loop of pushBoard: update the first issue with
exactly the task title, or create a new issue. -/
def pushTaskM (users : List User) (existingIssues : List GHIssue)
    (updatedLabels : List GHLabel) (t : KTask) : SyncM Unit :=
  let statusLabel := getStatusLabel t.status
  match existingIssues.find? (fun i => i.title == t.title) with
  | some issue =>
    updateIssueM issue.number
      { body := formatTaskBody t,
        labels := ((lookupLabelName updatedLabels statusLabel).toList).filter
          (fun s => ! s == ("")),
        assignees :=
          if t.assignee = ("") then none
          else
            match getAssigneeLogin users t.assignee with
            | some u => some [u]
            | none => none }
  | none =>
    createIssueM t.title (formatTaskBody t)
      (((lookupLabelName updatedLabels statusLabel).toList).filter (fun s => ! s == ("")))
      (if t.assignee = ("") then []
       else ((getAssigneeLogin users t.assignee).toList).filter (fun s => ! s == ("")))

/-- The task loop of pushBoard. -/
def pushTasksM (users : List User) (existingIssues : List GHIssue)
    (updatedLabels : List GHLabel) : List KTask → SyncM Unit
  | [] => SyncM.pure ()
  | t :: rest =>
    SyncM.bind (pushTaskM users existingIssues updatedLabels t)
      (fun _ => pushTasksM users existingIssues updatedLabels rest)

/-- Result of a successful push (the source also reports success: true). -/
structure PushResult where
  taskCount : Nat

/-- GitHubBoards.pushBoard, after its connection and repository guards:
fetch issues and labels, ensure the four status labels, refetch labels,
then push every task. -/
def pushBoardM (tasks : List KTask) (users : List User) : SyncM PushResult :=
  SyncM.bind getRepoIssuesM (fun existingIssues =>
    SyncM.bind getRepoLabelsM (fun existingLabels =>
      SyncM.bind (ensureLabelsM existingLabels statusLabels) (fun _ =>
        SyncM.bind getRepoLabelsM (fun updatedLabels =>
          SyncM.bind (pushTasksM users existingIssues updatedLabels tasks)
            (fun _ => SyncM.pure { taskCount := tasks.length })))))

/-! ### pullBoard (dragDrop.js lines 820-879) -/

/-- A task as constructed by pullBoard from a remote issue.  The fields
read from the parsed metadata are dynamically typed JavaScript values. -/
structure PulledTask where
  id : Nat
  title : String
  description : JVal
  status : String
  priority : JVal
  assignee : String
  dueDate : JVal
  comments : JVal
  attachments : JVal
  createdAt : String
  updatedAt : String
  githubIssueNumber : Nat
  githubUrl : String

/-- The task record built from one issue and its parsed body data: every
field access on the parsed value goes through jGet and throws when the
parsed value is the JSON value null. -/
def taskFromData (idv : Nat) (issue : GHIssue) (td : JVal) : Except Unit PulledTask :=
  match jGet td ("description"), jGet td ("priority"), jGet td ("dueDate"),
      jGet td ("comments"), jGet td ("attachments") with
  | .ok d, .ok p, .ok dd, .ok cm, .ok att =>
    .ok { id := idv, title := issue.title,
          description := jOr d (.jstr ("")),
          status := getKanbanStatus issue.labels,
          priority := jOr p (.jstr ("medium")),
          assignee := (match issue.assignees with | [] => ("") | a :: _ => a.login),
          dueDate := jOr dd (.jstr ("")),
          comments := jOr cm (.jarr []),
          attachments := jOr att (.jarr []),
          createdAt := issue.created_at, updatedAt := issue.updated_at,
          githubIssueNumber := issue.number, githubUrl := issue.html_url }
  | _, _, _, _, _ => .error ()

/-- Mapping of one remote issue to a local task (pullBoard loop body,
lines 839-861): fails with the TypeError when the metadata block holds
the JSON value null. -/
def issueToTask (idv : Nat) (issue : GHIssue) : Except Unit PulledTask :=
  taskFromData idv issue (parseTaskBody issue.body)

/-- The pull loop: number the tasks from the running counter, returning
the final counter value; the TypeError of a bad issue body aborts the
loop. -/
def pullTasksLoop : Nat → List GHIssue → Except Unit (List PulledTask × Nat)
  | n, [] => .ok ([], n)
  | n, i :: rest =>
    match issueToTask n i with
    | .error e => .error e
    | .ok t =>
      match pullTasksLoop (n + 1) rest with
      | .error e => .error e
      | .ok r => .ok (t :: r.1, r.2)

/-- Result of a successful pull. -/
structure PullResult where
  tasks : List PulledTask
  nextTaskId : Nat

/-- GitHubBoards.pullBoard after its guards: the TypeError of the task
loop propagates through the catch like any thrown error. -/
def pullBoardM : SyncM PullResult :=
  SyncM.bind getRepoIssuesM (fun issues _ st =>
    match pullTasksLoop 1 issues with
    | .ok r => (.ok { tasks := r.1, nextTaskId := r.2 }, st)
    | .error _ => (.error .typeError, st))

/-! ### Application-level glue (guards, status flag, local stores) -/

/-- The local stores (KanbanBoard.tasks and nextTaskId, UserManager
users). -/
structure LocalState where
  tasks : List KTask
  nextTaskId : Nat
  users : List User

/-- Application state: adapter configuration, local stores, remote state
and the adapter syncStatus flag. -/
structure GBState where
  accessToken : String
  selectedRepo : Option Repo
  localSt : LocalState
  remote : RemoteState
  syncStatus : String

/-- GitHubBoards.pushBoard with its guards: not connected and no
repository selected fail before any request; otherwise the monadic body
runs, the remote evolves, syncStatus is set, and the local stores pass
through untouched. -/
def pushBoardApp (st : GBState) (o : Oracle) :
    GBState × Except SyncError PushResult × List RemoteReq :=
  if st.accessToken = ("") then (st, .error .notConnected, [])
  else
    match st.selectedRepo with
    | none => (st, .error .noRepoSelected, [])
    | some _ =>
      match pushBoardM st.localSt.tasks st.localSt.users o
          { remote := st.remote, reqCount := 0, trace := [] } with
      | (.ok res, rs) =>
        ({ st with remote := rs.remote, syncStatus := ("success") }, .ok res, rs.trace)
      | (.error e, rs) =>
        ({ st with remote := rs.remote, syncStatus := ("error") }, .error e, rs.trace)

/-- GitHubBoards.pullBoard with its guards. -/
def pullBoardApp (st : GBState) (o : Oracle) :
    GBState × Except SyncError PullResult × List RemoteReq :=
  if st.accessToken = ("") then (st, .error .notConnected, [])
  else
    match st.selectedRepo with
    | none => (st, .error .noRepoSelected, [])
    | some _ =>
      match pullBoardM o { remote := st.remote, reqCount := 0, trace := [] } with
      | (.ok res, rs) =>
        ({ st with remote := rs.remote, syncStatus := ("success") }, .ok res, rs.trace)
      | (.error e, rs) =>
        ({ st with remote := rs.remote, syncStatus := ("error") }, .error e, rs.trace)

/-- The board state replaced by the pull button handler. -/
structure PulledBoard where
  tasks : List PulledTask
  nextTaskId : Nat

/-- The pull button handler (dragDrop.js lines 1263-1276): on success the
whole local task list is replaced by the pulled tasks and the counter by
the pulled counter. -/
def applyPullResult (_b : PulledBoard) (r : PullResult) : PulledBoard :=
  { tasks := r.tasks, nextTaskId := r.nextTaskId }

/-- Oracle under which every remote request succeeds. -/
def allOk : Oracle := fun _ => .ok

/-! ### The user store (userManager.js) -/

/-- KanbanBoard.updateTask specialised to an assignee change: the first
task with the id is updated in place, with a fresh updatedAt stamp. -/
def updateTaskAssignee (idv : Nat) (a : String) (now : String) :
    List KTask → List KTask
  | [] => []
  | t :: ts =>
    if t.id = idv then { t with assignee := a, updatedAt := now } :: ts
    else t :: updateTaskAssignee idv a now ts

/-- UserManager.getUserAssignedTasks: the tasks whose assignee parses to
the user id (loose numeric comparison; an unparsable assignee is NaN and
never equal). -/
def getUserAssignedTasks (tasks : List KTask) (userId : Nat) : List KTask :=
  tasks.filter (fun t =>
    match jsParseInt t.assignee with
    | some v => decide (v = (userId : Int))
    | none => false)

/-- UserManager.deleteUser (lines 259-276): when the user has assigned
tasks a confirmation is required; the cascade unassigns each of those
tasks through KanbanBoard.updateTask, then the user is removed. -/
def deleteUser (tasks : List KTask) (users : List User) (idv : Nat)
    (confirmOk : Bool) (now : String) : (List KTask × List User) × Bool :=
  let assigned := getUserAssignedTasks tasks idv
  if assigned.length > 0 && ! confirmOk then ((tasks, users), false)
  else
    ((assigned.foldl (fun ts t => updateTaskAssignee t.id ("") now ts) tasks,
      users.filter (fun u => ! u.id == idv)), true)

/-! ### CLAIM C7 -/

/-- The assignment predicate of getUserAssignedTasks. -/
def isAssignedTo (t : KTask) (userId : Nat) : Bool :=
  match jsParseInt t.assignee with
  | some v => decide (v = (userId : Int))
  | none => false

/-- The cascade effect on one task. -/
def unassignTask (now : String) (t : KTask) : KTask :=
  { t with assignee := (""), updatedAt := now }

/-! ### CLAIM C3 -/

/-- Sequential identifiers n, n+1, ... of a given length. -/
def seqIds : Nat → Nat → List Nat
  | _, 0 => []
  | n, k + 1 => n :: seqIds (n + 1) k

/-! ### CLAIM C8 -/

/-- A computation whose only failure mode is RemoteRequestFailed. -/
def OnlyRRF (m : SyncM α) : Prop :=
  ∀ o st e st', m o st = (.error e, st') → ∃ s msg, e = .remoteRequestFailed s msg

/-- States and oracle exercising each guard and the request-failure
path. -/
def c8StNoTok : GBState :=
  { accessToken := (""), selectedRepo := none,
    localSt := { tasks := [], nextTaskId := 1, users := [] },
    remote := { labels := [], issues := [], nextIssueNumber := 1, now := ("") },
    syncStatus := ("") }

def c8StNoRepo : GBState := { c8StNoTok with accessToken := ("t") }

def c8StConn : GBState :=
  { c8StNoRepo with selectedRepo := some { owner := ("o"), name := ("r") } }

def failOracle : Oracle := fun _ => .fail 500 none

/-! ### CLAIM C9 -/

/-- A board with three never-pushed tasks over an empty repository. -/
def c9Task (n : Nat) (s : String) : KTask :=
  { id := n, title := s, description := (""), status := ("todo"),
    priority := ("medium"), assignee := (""), dueDate := (""),
    comments := [], attachments := [] }

def c9St : GBState :=
  { accessToken := ("t"), selectedRepo := some { owner := ("o"), name := ("r") },
    localSt := { tasks := [c9Task 1 ("A"), c9Task 2 ("B"), c9Task 3 ("C")],
                 nextTaskId := 4, users := [] },
    remote := { labels := [], issues := [], nextIssueNumber := 1, now := ("T") },
    syncStatus := ("") }

/-- A remote that accepts the first eight requests and then returns 500:
the creation of issue "A" (request 7) commits, the creation of "B"
(request 8) fails. -/
def c9Oracle : Oracle := fun n => if n = 8 then .fail 500 none else .ok

/-! ### CLAIM C4 -/

/-- A title that some non-pull-request issue of the remote carries. -/
def titlePresent (rem : RemoteState) (s : String) : Prop :=
  ∃ i ∈ rem.issues, i.title = s ∧ i.pull_request = false

/-- Requests that create a remote object. -/
def isCreateReq : RemoteReq → Bool
  | .createIssue _ _ _ _ => true
  | .createLabel _ _ => true
  | _ => false

/-- Remote state after a PATCH of issue number n. -/
def patchedRemote (u : IssueUpdate) (n : Nat) (rem : RemoteState) : RemoteState :=
  { rem with
    issues := (rem.issues.map
      (fun i => if i.number = n then applyUpdate u rem.now i else i)) }

/-- Remote state after a POST issues request. -/
def extendedRemote (rem : RemoteState) (ti bo : String) (ls as : List String) : RemoteState :=
  { rem with
    issues := (rem.issues ++ [mkIssue rem ti bo ls as])
    nextIssueNumber := rem.nextIssueNumber + 1 }

/-- Remote state after a POST labels request. -/
def labeledRemote (rem : RemoteState) (n c : String) : RemoteState :=
  { rem with labels := (rem.labels ++ [{ name := n, color := c }]) }

/-- Request-level state advanced by one recorded request. -/
def reqStep (st : RState) (rem2 : RemoteState) (r : RemoteReq) : RState :=
  { remote := rem2, reqCount := st.reqCount + 1, trace := (st.trace ++ [r]) }

/-- The PATCH payload built by the task loop for an existing issue. -/
def pushUpdatePayload (users : List User) (upd : List GHLabel) (t : KTask) : IssueUpdate :=
  { body := formatTaskBody t
    labels := (((lookupLabelName upd (getStatusLabel t.status)).toList).filter
      (fun s => ! s == ("")))
    assignees :=
      (if t.assignee = ("") then none
       else
         match getAssigneeLogin users t.assignee with
         | some u => some [u]
         | none => none) }

/-- A connected one-task board over an empty repository. -/
def c4St : GBState :=
  { accessToken := ("t"), selectedRepo := some { owner := ("o"), name := ("r") },
    localSt := { tasks := [c9Task 1 ("A")], nextTaskId := 2, users := [] },
    remote := { labels := [], issues := [], nextIssueNumber := 1, now := ("T") },
    syncStatus := ("") }

/-- An issue body whose embedded metadata block is the JSON literal
null: parseTaskBody returns the parsed value unchecked, and the pull
loop then dereferences it. -/
def c3NullBody : String :=
  ("<!-- pixelKanban metadata:\nnull\n-->")

/-- A connected state over a responsive remote holding one ordinary
issue whose body carries a null metadata block. -/
def c3BadSt : GBState :=
  { accessToken := ("t"), selectedRepo := some { owner := ("o"), name := ("r") },
    localSt := { tasks := [], nextTaskId := 1, users := [] },
    remote :=
      { labels := [],
        issues :=
          [{ number := 3, title := ("a"), body := some c3NullBody, labels := [],
             assignees := [], pull_request := false, created_at := ("c"),
             updated_at := ("u"), html_url := ("h") }],
        nextIssueNumber := 4, now := ("n") },
    syncStatus := ("") }

/-- CLAIM C2.  Status derivation from labels obeys the fixed precedence
done over in-progress over todo over backlog, case-insensitively on the
label names: getKanbanStatus agrees with the precedence-table reading of
the spec; a label set containing both done and in progress yields done;
a label set containing none of the four recognized label names yields
backlog. -/
theorem c2_status_precedence :
    (∀ labels : List GHLabel, getKanbanStatus labels = statusOfLabelsSpec labels) ∧
    (∀ labels : List GHLabel,
      (labels.map (fun l => jsToLower l.name)).contains ("done") = true →
      (labels.map (fun l => jsToLower l.name)).contains ("in progress") = true →
      getKanbanStatus labels = ("done")) ∧
    (∀ labels : List GHLabel,
      (∀ l ∈ labels, ¬ statusLabels.contains (jsToLower l.name)) →
      getKanbanStatus labels = ("backlog")) := by
  have hnotmem : ∀ (names : List String) (x : String), ¬ x ∈ names →
      names.contains x = false := by
    intro names x h
    cases hc : names.contains x with
    | false => rfl
    | true => exact absurd (List.mem_of_elem_eq_true hc) h
  refine ⟨?_, ?_, ?_⟩
  · intro labels
    simp only [getKanbanStatus, statusOfLabelsSpec, firstPresentStatus]
    by_cases h1 : (labels.map (fun l => jsToLower l.name)).contains ("done") = true
    · rw [if_pos h1, if_pos h1]
      rfl
    · rw [if_neg h1, if_neg h1]
      by_cases h2 :
          (labels.map (fun l => jsToLower l.name)).contains ("in progress") = true
      · rw [if_pos h2, if_pos h2]
        rfl
      · rw [if_neg h2, if_neg h2]
        by_cases h3 :
            (labels.map (fun l => jsToLower l.name)).contains ("to do") = true
        · rw [if_pos h3, if_pos h3]
          rfl
        · rw [if_neg h3, if_neg h3]
          rfl
  · intro labels h1 _h2
    simp only [getKanbanStatus]
    rw [if_pos h1]
  · intro labels hnone
    have key : ∀ x : String, statusLabels.contains x = true →
        (labels.map (fun l => jsToLower l.name)).contains x = false := by
      intro x hx
      refine hnotmem _ _ ?_
      intro hmem
      obtain ⟨l, hl, rfl⟩ := List.mem_map.mp hmem
      exact hnone l hl hx
    have hd := key (("done")) (by decide)
    have hip := key (("in progress")) (by decide)
    have htd := key (("to do")) (by decide)
    simp only [getKanbanStatus]
    rw [if_neg (by rw [hd]; exact Bool.false_ne_true),
        if_neg (by rw [hip]; exact Bool.false_ne_true),
        if_neg (by rw [htd]; exact Bool.false_ne_true)]

/-- Witness for CLAIM C2 at concrete label sets: a set with both done and
in progress resolves to done, and a set with none of the recognized
labels resolves to backlog. -/
theorem c2_status_precedence_witness :
    getKanbanStatus [⟨("Done"), ("3fb950")⟩, ⟨("in progress"), ("a371f7")⟩] = ("done") ∧
    getKanbanStatus [⟨("high-priority"), ("ff0000")⟩] = ("backlog") := by
  constructor
  · exact c2_status_precedence.2.1 _ (by decide) (by decide)
  · exact c2_status_precedence.2.2 _ (by decide)

/-! ### Scanning lemmas -/

theorem skipWs_cons (c : Char) (cs : List Char) (h : isJsonWsC c = false) :
    skipWs (c :: cs) = c :: cs := by
  simp [skipWs, List.dropWhile_cons, h]

theorem prefixAt_append_self (pat rest : List Char) :
    prefixAt pat (pat ++ rest) = true := by
  simp [prefixAt]

theorem splitFirst_eq_of_first (pat : List Char) :
    ∀ (n : Nat) (cs : List Char), prefixAt pat (cs.drop n) = true →
    (∀ i < n, prefixAt pat (cs.drop i) = false) →
    splitFirst pat cs = some (cs.take n, cs.drop (n + pat.length)) := by
  intro n
  induction n with
  | zero =>
    intro cs h _
    cases cs with
    | nil =>
      simp only [List.drop_nil] at h
      simp only [prefixAt, List.prefix_nil, decide_eq_true_eq] at h
      subst h
      simp [splitFirst]
    | cons c cs' =>
      simp only [List.drop_zero] at h
      simp [splitFirst, h]
  | succ k ih =>
    intro cs h hmin
    cases cs with
    | nil =>
      simp only [List.drop_nil] at h
      simp only [prefixAt, List.prefix_nil, decide_eq_true_eq] at h
      have h0 := hmin 0 (Nat.succ_pos k)
      simp [prefixAt, h] at h0
    | cons c cs' =>
      have h0 := hmin 0 (Nat.succ_pos k)
      simp only [List.drop_zero] at h0
      simp only [splitFirst, h0, Bool.false_eq_true, if_false]
      have hdrop : (c :: cs').drop (k + 1) = cs'.drop k := by simp
      rw [hdrop] at h
      have hrec := ih cs' h (fun i hi => by
        have := hmin (i + 1) (by omega)
        simpa using this)
      rw [hrec]
      have harith : k + 1 + pat.length = (k + pat.length) + 1 := by omega
      rw [harith]
      simp [List.take_succ_cons, List.drop_succ_cons]

/-! ### Decimal digit printing and reparsing -/

theorem toNat_digit_char (m : Nat) (h : m < 10) :
    (Char.ofNat (48 + m)).toNat = 48 + m := by
  interval_cases m <;> decide

theorem isDigit_digit_char (m : Nat) (h : m < 10) :
    isDigitC (Char.ofNat (48 + m)) = true := by
  interval_cases m <;> decide

theorem natDigsAux_acc (fuel : Nat) : ∀ (n : Nat) (acc : List Char),
    natDigsAux fuel n acc = natDigsAux fuel n [] ++ acc := by
  induction fuel with
  | zero => intro n acc; simp [natDigsAux]
  | succ f ih =>
    intro n acc
    simp only [natDigsAux]
    by_cases h : n < 10
    · simp [h]
    · simp only [if_neg h]
      rw [ih (n / 10) (Char.ofNat (48 + n % 10) :: acc),
          ih (n / 10) [Char.ofNat (48 + n % 10)]]
      simp

theorem natDigsAux_fuel : ∀ (f g n : Nat) (acc : List Char), 1 ≤ f → 1 ≤ g →
    n < 10 ^ f → n < 10 ^ g → natDigsAux f n acc = natDigsAux g n acc := by
  intro f
  induction f with
  | zero => intro g n acc hf; omega
  | succ f ih =>
    intro g n acc _ hg h1 h2
    cases g with
    | zero => omega
    | succ g' =>
      simp only [natDigsAux]
      by_cases h : n < 10
      · simp [h]
      · simp only [if_neg h]
        have hf' : 1 ≤ f := by
          by_contra hc
          have : f = 0 := by omega
          subst this
          simp at h1
          omega
        have hg' : 1 ≤ g' := by
          by_contra hc
          have : g' = 0 := by omega
          subst this
          simp at h2
          omega
        have hd1 : n / 10 < 10 ^ f := by
          rw [Nat.div_lt_iff_lt_mul (by omega)]
          calc n < 10 ^ (f + 1) := h1
          _ = 10 ^ f * 10 := by ring
        have hd2 : n / 10 < 10 ^ g' := by
          rw [Nat.div_lt_iff_lt_mul (by omega)]
          calc n < 10 ^ (g' + 1) := h2
          _ = 10 ^ g' * 10 := by ring
        exact ih g' (n / 10) _ hf' hg' hd1 hd2

theorem natDigs_small (n : Nat) (h : n < 10) :
    natDigs n = [Char.ofNat (48 + n)] := by
  simp [natDigs, natDigsAux, h]

theorem natDigs_decomp (n : Nat) (h : 10 ≤ n) :
    natDigs n = natDigs (n / 10) ++ [Char.ofNat (48 + n % 10)] := by
  have h1 : natDigs n = natDigsAux n (n / 10) [Char.ofNat (48 + n % 10)] := by
    simp only [natDigs, natDigsAux]
    rw [if_neg (by omega)]
  rw [h1, natDigsAux_acc]
  congr 1
  apply natDigsAux_fuel
  · omega
  · omega
  · calc n / 10 ≤ n := Nat.div_le_self n 10
    _ < 10 ^ n := Nat.lt_pow_self (by norm_num) n
  · calc n / 10 < 10 ^ (n / 10) := Nat.lt_pow_self (by norm_num) (n / 10)
    _ ≤ 10 ^ (n / 10 + 1) := Nat.pow_le_pow_right (by norm_num) (by omega)

theorem natDigs_all_digits (n : Nat) : ∀ c ∈ natDigs n, isDigitC c = true := by
  induction n using Nat.strong_induction_on with
  | _ n ih =>
    by_cases h : n < 10
    · rw [natDigs_small n h]
      intro c hc
      simp only [List.mem_singleton] at hc
      subst hc
      exact isDigit_digit_char n h
    · rw [natDigs_decomp n (by omega)]
      intro c hc
      rcases List.mem_append.mp hc with h1 | h2
      · exact ih (n / 10) (by omega) c h1
      · simp only [List.mem_singleton] at h2
        subst h2
        exact isDigit_digit_char (n % 10) (Nat.mod_lt n (by omega))

theorem natDigs_head (n : Nat) (h : 1 ≤ n) :
    ∃ c cs, natDigs n = c :: cs ∧ isDigitC c = true ∧ c ≠ '0' := by
  induction n using Nat.strong_induction_on with
  | _ n ih =>
    by_cases hn : n < 10
    · refine ⟨Char.ofNat (48 + n), [], natDigs_small n hn, isDigit_digit_char n hn, ?_⟩
      intro hc
      have := toNat_digit_char n hn
      rw [hc] at this
      simp at this
      omega
    · obtain ⟨c, cs, hcons, hdig, hne⟩ := ih (n / 10) (by omega) (by omega)
      exact ⟨c, cs ++ [Char.ofNat (48 + n % 10)],
        by rw [natDigs_decomp n (by omega), hcons]; simp, hdig, hne⟩

theorem takeDigits_append (ds : List Char) : ∀ (rest : List Char) (a : Nat),
    (∀ c ∈ ds, isDigitC c = true) →
    (∀ c cs, rest = c :: cs → isDigitC c = false) →
    takeDigits (ds ++ rest) a = (ds.foldl digStep a, rest) := by
  induction ds with
  | nil =>
    intro rest a _ hrest
    cases rest with
    | nil => simp [takeDigits]
    | cons c cs =>
      simp only [List.nil_append, List.foldl_nil, takeDigits]
      rw [if_neg (by rw [hrest c cs rfl]; exact Bool.false_ne_true)]
  | cons d ds ih =>
    intro rest a hds hrest
    have hd : isDigitC d = true := hds d (List.mem_cons_self d ds)
    simp only [List.cons_append, takeDigits, hd, if_true, List.foldl_cons]
    exact ih rest (digStep a d) (fun c hc => hds c (List.mem_cons_of_mem d hc)) hrest

theorem natDigs_foldl (n : Nat) : ∀ (a : Nat),
    (natDigs n).foldl digStep a = a * 10 ^ (natDigs n).length + n := by
  induction n using Nat.strong_induction_on with
  | _ n ih =>
    intro a
    by_cases h : n < 10
    · rw [natDigs_small n h]
      simp only [List.foldl_cons, List.foldl_nil, List.length_singleton, pow_one, digStep]
      rw [toNat_digit_char n h]
      omega
    · rw [natDigs_decomp n (by omega)]
      rw [List.foldl_append, List.length_append]
      rw [ih (n / 10) (by omega) a]
      simp only [List.foldl_cons, List.foldl_nil, List.length_singleton, digStep]
      rw [toNat_digit_char (n % 10) (Nat.mod_lt n (by omega))]
      have : a * 10 ^ ((natDigs (n / 10)).length + 1) =
          a * 10 ^ (natDigs (n / 10)).length * 10 := by ring
      rw [this]
      omega

theorem parseNatLex_natDigs (n : Nat) (rest : List Char) (hrest : headNotDigit rest) :
    parseNatLex (natDigs n ++ rest) = some (n, rest) := by
  by_cases h0 : n = 0
  · subst h0
    have : natDigs 0 = ['0'] := by decide
    rw [this]
    cases rest with
    | nil => rfl
    | cons c cs =>
      simp only [List.cons_append, List.nil_append, parseNatLex, if_pos rfl]
      rw [hrest c cs rfl]
      simp
  · obtain ⟨c, cs, hcons, hdig, hne⟩ := natDigs_head n (by omega)
    rw [hcons]
    simp only [List.cons_append, parseNatLex, if_neg hne, hdig, if_true]
    have hall : ∀ x ∈ c :: cs, isDigitC x = true := by
      rw [← hcons]; exact natDigs_all_digits n
    rw [show (c :: (cs ++ rest)) = (c :: cs) ++ rest from rfl,
        takeDigits_append (c :: cs) rest 0 hall hrest]
    rw [← hcons, natDigs_foldl n 0]
    simp

theorem natDigs_head_digit (n : Nat) :
    ∃ c cs, natDigs n = c :: cs ∧ isDigitC c = true := by
  by_cases h0 : n = 0
  · subst h0
    exact ⟨'0', [], by decide, by decide⟩
  · obtain ⟨c, cs, hcons, hdig, _⟩ := natDigs_head n (by omega)
    exact ⟨c, cs, hcons, hdig⟩

theorem parseNum_natDigs (n : Nat) (rest : List Char) (hrest : headNotDigit rest) :
    parseNum (natDigs n ++ rest) = some ((n : Int), rest) := by
  have hlex := parseNatLex_natDigs n rest hrest
  obtain ⟨c, cs, hcons, hdig⟩ := natDigs_head_digit n
  have hcne : c ≠ '-' := by
    intro h
    rw [h] at hdig
    exact absurd hdig (by decide)
  rw [hcons] at hlex ⊢
  simp only [List.cons_append] at hlex ⊢
  rw [parseNum.eq_def]
  split
  · rename_i rest2 heq
    exact absurd (List.head_eq_of_cons_eq heq) hcne
  · rw [hlex]
    rfl

/-! ### String escaping round trip -/

theorem hexVal_hexChar (m : Nat) (h : m < 16) : hexVal (hexChar m) = some m := by
  interval_cases m <;> decide

set_option maxHeartbeats 1600000 in
theorem psb_plain (c : Char) (X : List Char) (h1 : ¬ c = '"') (h2 : ¬ c = '\\')
    (h3 : ¬ c.toNat < 32) :
    parseStrBody (c :: X) = (parseStrBody X).map (fun p => (c :: p.1, p.2)) := by
  rw [parseStrBody.eq_def]
  split <;> simp_all

theorem psb_quote (X : List Char) : parseStrBody ('"' :: X) = some ([], X) := rfl

theorem psb_esc_quote (X : List Char) :
    parseStrBody ('\\' :: '"' :: X) = (parseStrBody X).map (fun p => ('"' :: p.1, p.2)) := rfl

theorem psb_esc_bs (X : List Char) :
    parseStrBody ('\\' :: '\\' :: X) = (parseStrBody X).map (fun p => ('\\' :: p.1, p.2)) := rfl

theorem psb_esc_b (X : List Char) :
    parseStrBody ('\\' :: 'b' :: X)
      = (parseStrBody X).map (fun p => (Char.ofNat 8 :: p.1, p.2)) := rfl

theorem psb_esc_t (X : List Char) :
    parseStrBody ('\\' :: 't' :: X)
      = (parseStrBody X).map (fun p => ('\t' :: p.1, p.2)) := rfl

theorem psb_esc_n (X : List Char) :
    parseStrBody ('\\' :: 'n' :: X)
      = (parseStrBody X).map (fun p => ('\n' :: p.1, p.2)) := rfl

theorem psb_esc_f (X : List Char) :
    parseStrBody ('\\' :: 'f' :: X)
      = (parseStrBody X).map (fun p => (Char.ofNat 12 :: p.1, p.2)) := rfl

theorem psb_esc_r (X : List Char) :
    parseStrBody ('\\' :: 'r' :: X)
      = (parseStrBody X).map (fun p => (Char.ofNat 13 :: p.1, p.2)) := rfl

theorem psb_esc_u (a b c2 d : Char) (X : List Char) :
    parseStrBody ('\\' :: 'u' :: a :: b :: c2 :: d :: X)
      = match hexVal a, hexVal b, hexVal c2, hexVal d with
        | some va, some vb, some vc, some vd =>
          (parseStrBody X).map
            (fun p => (Char.ofNat (va * 4096 + vb * 256 + vc * 16 + vd) :: p.1, p.2))
        | _, _, _, _ => none := rfl

theorem parseStrBody_esc (cs : List Char) : ∀ rest : List Char,
    parseStrBody (escBody cs ++ ('"' :: rest)) = some (cs, rest) := by
  induction cs with
  | nil =>
    intro rest
    rfl
  | cons c cs ih =>
    intro rest
    have hesc : escBody (c :: cs) = escChar c ++ escBody cs := by
      simp [escBody]
    rw [hesc, List.append_assoc]
    by_cases h1 : c = '"'
    · have he : escChar c = ['\\', '"'] := by
        simp only [escChar]
        rw [if_pos h1]
      rw [he]
      simp only [List.cons_append, List.nil_append]
      rw [psb_esc_quote, ih rest]
      show some (('"' : Char) :: cs, rest) = some (c :: cs, rest)
      rw [h1]
    · by_cases h2 : c = '\\'
      · have he : escChar c = ['\\', '\\'] := by
          simp only [escChar]
          rw [if_neg h1, if_pos h2]
        rw [he]
        simp only [List.cons_append, List.nil_append]
        rw [psb_esc_bs, ih rest]
        show some (('\\' : Char) :: cs, rest) = some (c :: cs, rest)
        rw [h2]
      · by_cases h3 : c.toNat = 8
        · have he : escChar c = ['\\', 'b'] := by
            simp only [escChar]
            rw [if_neg h1, if_neg h2, if_pos h3]
          have hc : Char.ofNat 8 = c := by rw [← h3, Char.ofNat_toNat]
          rw [he]
          simp only [List.cons_append, List.nil_append]
          rw [psb_esc_b, ih rest]
          show some (Char.ofNat 8 :: cs, rest) = some (c :: cs, rest)
          rw [hc]
        · by_cases h4 : c.toNat = 9
          · have he : escChar c = ['\\', 't'] := by
              simp only [escChar]
              rw [if_neg h1, if_neg h2, if_neg h3, if_pos h4]
            have hc : ('\t' : Char) = c := by
              have h9 : ('\t' : Char) = Char.ofNat 9 := by decide
              rw [h9, ← h4, Char.ofNat_toNat]
            rw [he]
            simp only [List.cons_append, List.nil_append]
            rw [psb_esc_t, ih rest]
            show some (('\t' : Char) :: cs, rest) = some (c :: cs, rest)
            rw [hc]
          · by_cases h5 : c.toNat = 10
            · have he : escChar c = ['\\', 'n'] := by
                simp only [escChar]
                rw [if_neg h1, if_neg h2, if_neg h3, if_neg h4, if_pos h5]
              have hc : ('\n' : Char) = c := by
                have h10 : ('\n' : Char) = Char.ofNat 10 := by decide
                rw [h10, ← h5, Char.ofNat_toNat]
              rw [he]
              simp only [List.cons_append, List.nil_append]
              rw [psb_esc_n, ih rest]
              show some (('\n' : Char) :: cs, rest) = some (c :: cs, rest)
              rw [hc]
            · by_cases h6 : c.toNat = 12
              · have he : escChar c = ['\\', 'f'] := by
                  simp only [escChar]
                  rw [if_neg h1, if_neg h2, if_neg h3, if_neg h4, if_neg h5, if_pos h6]
                have hc : Char.ofNat 12 = c := by rw [← h6, Char.ofNat_toNat]
                rw [he]
                simp only [List.cons_append, List.nil_append]
                rw [psb_esc_f, ih rest]
                show some (Char.ofNat 12 :: cs, rest) = some (c :: cs, rest)
                rw [hc]
              · by_cases h7 : c.toNat = 13
                · have he : escChar c = ['\\', 'r'] := by
                    simp only [escChar]
                    rw [if_neg h1, if_neg h2, if_neg h3, if_neg h4, if_neg h5,
                        if_neg h6, if_pos h7]
                  have hc : Char.ofNat 13 = c := by rw [← h7, Char.ofNat_toNat]
                  rw [he]
                  simp only [List.cons_append, List.nil_append]
                  rw [psb_esc_r, ih rest]
                  show some (Char.ofNat 13 :: cs, rest) = some (c :: cs, rest)
                  rw [hc]
                · by_cases h8 : c.toNat < 32
                  · have he : escChar c
                        = ['\\', 'u', '0', '0', hexChar (c.toNat / 16),
                           hexChar (c.toNat % 16)] := by
                      simp only [escChar]
                      rw [if_neg h1, if_neg h2, if_neg h3, if_neg h4, if_neg h5,
                          if_neg h6, if_neg h7, if_pos h8]
                    rw [he]
                    simp only [List.cons_append, List.nil_append]
                    rw [psb_esc_u]
                    rw [hexVal_hexChar (c.toNat / 16) (by omega),
                        hexVal_hexChar (c.toNat % 16) (by omega),
                        (by decide : hexVal '0' = some 0)]
                    rw [ih rest]
                    show some (Char.ofNat
                        (0 * 4096 + 0 * 256 + c.toNat / 16 * 16 + c.toNat % 16) :: cs,
                        rest) = some (c :: cs, rest)
                    have hv : 0 * 4096 + 0 * 256 + c.toNat / 16 * 16 + c.toNat % 16
                        = c.toNat := by omega
                    rw [hv, Char.ofNat_toNat]
                  · have he : escChar c = [c] := by
                      simp only [escChar]
                      rw [if_neg h1, if_neg h2, if_neg h3, if_neg h4, if_neg h5,
                          if_neg h6, if_neg h7, if_neg h8]
                    rw [he]
                    simp only [List.cons_append, List.nil_append]
                    rw [psb_plain c _ h1 h2 h8, ih rest]
                    rfl

theorem parseListAux_succ (pv : List Char → Option (JVal × List Char)) (lf : Nat)
    (cs : List Char) (acc : List JVal) :
    parseListAux pv (lf + 1) cs acc
      = match pv cs with
        | some (v, rest) =>
          match skipWs rest with
          | ',' :: rest2 => parseListAux pv lf rest2 (acc ++ [v])
          | ']' :: rest2 => some (acc ++ [v], rest2)
          | _ => none
        | none => none := rfl

theorem parseListAux_close (pv : List Char → Option (JVal × List Char)) (lf : Nat)
    (v : List Char) (jv : JVal) (acc : List JVal) (rest : List Char)
    (hpv : pv (v ++ ']' :: rest) = some (jv, ']' :: rest)) :
    parseListAux pv (lf + 1) (v ++ ']' :: rest) acc = some (acc ++ [jv], rest) := by
  rw [parseListAux_succ, hpv]
  rfl

theorem parseListAux_comma (pv : List Char → Option (JVal × List Char)) (lf : Nat)
    (v : List Char) (jv : JVal) (acc : List JVal) (Z : List Char)
    (hpv : pv (v ++ ',' :: Z) = some (jv, ',' :: Z)) :
    parseListAux pv (lf + 1) (v ++ ',' :: Z) acc = parseListAux pv lf Z (acc ++ [jv]) := by
  rw [parseListAux_succ, hpv]
  rfl

theorem parseListAux_enc (pv : List Char → Option (JVal × List Char))
    (encE : α → List Char) (jE : α → JVal) :
    ∀ (xs : List α) (lf : Nat) (acc : List JVal) (rest : List Char),
      (∀ x ∈ xs, ∀ rr : List Char, sepHead rr → pv (encE x ++ rr) = some (jE x, rr)) →
      xs ≠ [] → xs.length ≤ lf →
      parseListAux pv lf (encListAux encE xs ++ ']' :: rest) acc
        = some (acc ++ xs.map jE, rest) := by
  intro xs
  induction xs with
  | nil => intro lf acc rest _ hne; exact absurd rfl hne
  | cons x xs ih =>
    intro lf acc rest hpv _ hlen
    cases lf with
    | zero => simp at hlen
    | succ lf' =>
      cases xs with
      | nil =>
        have hshape : encListAux encE [x] = encE x := rfl
        rw [hshape,
          parseListAux_close pv lf' (encE x) (jE x) acc rest
            (hpv x (by simp) (']' :: rest) ⟨']', rest, rfl, Or.inr (Or.inl rfl)⟩)]
        simp
      | cons y ys =>
        have hshape : encListAux encE (x :: y :: ys)
            = encE x ++ ',' :: encListAux encE (y :: ys) := rfl
        rw [hshape]
        rw [List.append_assoc, List.cons_append]
        rw [parseListAux_comma pv lf' (encE x) (jE x) acc _
            (hpv x (by simp) (',' :: _) ⟨',', _, rfl, Or.inl rfl⟩)]
        rw [ih lf' (acc ++ [jE x]) rest
            (fun z hz => hpv z (by simp [hz])) (by simp) (by simpa using hlen)]
        simp

theorem parseFieldsAux_qhead (pv : List Char → Option (JVal × List Char)) (lf : Nat)
    (acc : List (String × JVal)) (T : List Char) :
    parseFieldsAux pv (lf + 1) ('"' :: T) acc
      = match parseStrBody T with
        | some (key, rest2) =>
          match skipWs rest2 with
          | ':' :: rest3 =>
            match pv rest3 with
            | some (v, rest4) =>
              match skipWs rest4 with
              | ',' :: rest5 => parseFieldsAux pv lf rest5 (acc ++ [(String.mk key, v)])
              | '\x7d' :: rest5 => some (acc ++ [(String.mk key, v)], rest5)
              | _ => none
            | none => none
          | _ => none
        | none => none := rfl

theorem encField_shape (k : String) (v X : List Char) :
    encField k v ++ X = '"' :: (escBody k.data ++ ('"' :: (':' :: (v ++ X)))) := by
  simp [encField, encStrChars]

theorem parseFieldsAux_close (pv : List Char → Option (JVal × List Char)) (lf : Nat)
    (k : String) (v : List Char) (jv : JVal) (acc : List (String × JVal))
    (rest : List Char)
    (hpv : pv (v ++ '\x7d' :: rest) = some (jv, '\x7d' :: rest)) :
    parseFieldsAux pv (lf + 1) (encField k v ++ '\x7d' :: rest) acc
      = some (acc ++ [(k, jv)], rest) := by
  have h1 : parseFieldsAux pv (lf + 1) (encField k v ++ '\x7d' :: rest) acc
      = match pv (v ++ '\x7d' :: rest) with
        | some (jv2, rest4) =>
          match skipWs rest4 with
          | ',' :: rest5 => parseFieldsAux pv lf rest5 (acc ++ [(k, jv2)])
          | '\x7d' :: rest5 => some (acc ++ [(k, jv2)], rest5)
          | _ => none
        | none => none := by
    rw [encField_shape, parseFieldsAux_qhead, parseStrBody_esc]
    rfl
  rw [h1, hpv]
  rfl

theorem parseFieldsAux_comma (pv : List Char → Option (JVal × List Char)) (lf : Nat)
    (k : String) (v : List Char) (jv : JVal) (acc : List (String × JVal))
    (Z : List Char)
    (hpv : pv (v ++ ',' :: Z) = some (jv, ',' :: Z)) :
    parseFieldsAux pv (lf + 1) (encField k v ++ ',' :: Z) acc
      = parseFieldsAux pv lf Z (acc ++ [(k, jv)]) := by
  have h1 : parseFieldsAux pv (lf + 1) (encField k v ++ ',' :: Z) acc
      = match pv (v ++ ',' :: Z) with
        | some (jv2, rest4) =>
          match skipWs rest4 with
          | ',' :: rest5 => parseFieldsAux pv lf rest5 (acc ++ [(k, jv2)])
          | '\x7d' :: rest5 => some (acc ++ [(k, jv2)], rest5)
          | _ => none
        | none => none := by
    rw [encField_shape, parseFieldsAux_qhead, parseStrBody_esc]
    rfl
  rw [h1, hpv]
  rfl

theorem parseFieldsAux_enc (pv : List Char → Option (JVal × List Char)) :
    ∀ (fs : List (String × List Char × JVal)) (lf : Nat)
      (acc : List (String × JVal)) (rest : List Char),
      (∀ x ∈ fs, ∀ rr : List Char, sepHead rr → pv (x.2.1 ++ rr) = some (x.2.2, rr)) →
      fs ≠ [] → fs.length ≤ lf →
      parseFieldsAux pv lf
          (encListAux (fun x => encField x.1 x.2.1) fs ++ '\x7d' :: rest) acc
        = some (acc ++ fs.map (fun x => (x.1, x.2.2)), rest) := by
  intro fs
  induction fs with
  | nil => intro lf acc rest _ hne; exact absurd rfl hne
  | cons x xs ih =>
    intro lf acc rest hpv _ hlen
    cases lf with
    | zero => simp at hlen
    | succ lf' =>
      cases xs with
      | nil =>
        have hshape : encListAux (fun x => encField x.1 x.2.1) [x]
            = encField x.1 x.2.1 := rfl
        rw [hshape,
          parseFieldsAux_close pv lf' x.1 x.2.1 x.2.2 acc rest
            (hpv x (by simp) ('\x7d' :: rest) ⟨'\x7d', rest, rfl, Or.inr (Or.inr rfl)⟩)]
        simp
      | cons y ys =>
        have hshape : encListAux (fun x => encField x.1 x.2.1) (x :: y :: ys)
            = encField x.1 x.2.1
              ++ ',' :: encListAux (fun x => encField x.1 x.2.1) (y :: ys) := rfl
        rw [hshape]
        rw [List.append_assoc, List.cons_append]
        rw [parseFieldsAux_comma pv lf' x.1 x.2.1 x.2.2 acc _
            (hpv x (by simp) (',' :: _) ⟨',', _, rfl, Or.inl rfl⟩)]
        rw [ih lf' (acc ++ [(x.1, x.2.2)]) rest
            (fun z hz => hpv z (by simp [hz])) (by simp) (by simpa using hlen)]
        simp

/-! ### parseVal on the encodings of scalar values -/

theorem parseVal_qstep (f : Nat) (T : List Char) :
    parseVal (f + 1) ('"' :: T)
      = (parseStrBody T).map (fun p => (JVal.jstr (String.mk p.1), p.2)) := rfl

theorem parseVal_encStr (f : Nat) (s : String) (X : List Char) :
    parseVal (f + 1) (encStrChars s ++ X) = some (.jstr s, X) := by
  have h0 : encStrChars s ++ X = '"' :: (escBody s.data ++ ('"' :: X)) := by
    simp [encStrChars]
  rw [h0, parseVal_qstep, parseStrBody_esc]
  rfl

theorem parseVal_true (f : Nat) (X : List Char) :
    parseVal (f + 1) (("true").data ++ X) = some (.jbool true, X) := rfl

theorem parseVal_null (f : Nat) (X : List Char) :
    parseVal (f + 1) (("null").data ++ X) = some (.jnull, X) := rfl

theorem digit_range (c : Char) (h : isDigitC c = true) :
    48 ≤ c.toNat ∧ c.toNat ≤ 57 := by
  simpa [isDigitC, Bool.and_eq_true, decide_eq_true_eq] using h

theorem sepHead_not_digit (r : List Char) (h : sepHead r) : headNotDigit r := by
  obtain ⟨c, rs, rfl, hc⟩ := h
  intro c2 cs2 heq
  obtain ⟨rfl, rfl⟩ := List.cons_eq_cons.mp heq
  rcases hc with rfl | rfl | rfl <;> decide

theorem pv_num_step (f : Nat) (c : Char) (T : List Char)
    (hws : isJsonWsC c = false) (hn : c ≠ 'n') (ht : c ≠ 't') (hf : c ≠ 'f')
    (hq : c ≠ '"') (hb : c ≠ '[') (ho : c ≠ '\x7b') :
    parseVal (f + 1) (c :: T) = (parseNum (c :: T)).map (fun p => (.jnum p.1, p.2)) := by
  simp only [parseVal]
  rw [skipWs_cons c T hws]
  split
  · rename_i heq
    exact absurd (List.head_eq_of_cons_eq heq) hn
  · rename_i heq
    exact absurd (List.head_eq_of_cons_eq heq) ht
  · rename_i heq
    exact absurd (List.head_eq_of_cons_eq heq) hf
  · rename_i heq
    exact absurd (List.head_eq_of_cons_eq heq) hq
  · rename_i heq
    exact absurd (List.head_eq_of_cons_eq heq) hb
  · rename_i heq
    exact absurd (List.head_eq_of_cons_eq heq) ho
  · rfl

theorem parseVal_natDigs (f n : Nat) (r : List Char) (hr : sepHead r) :
    parseVal (f + 1) (natDigs n ++ r) = some (.jnum (n : Int), r) := by
  obtain ⟨c, cs, hcons, hdig⟩ := natDigs_head_digit n
  have hrange := digit_range c hdig
  have hws : isJsonWsC c = false := by
    simp only [isJsonWsC]
    simp only [Bool.or_eq_false_iff, decide_eq_false_iff_not]
    omega
  have hchar : ∀ d : Char, c = d → (48 ≤ d.toNat → d.toNat ≤ 57 → False) → False := by
    intro d hcd hd
    rw [hcd] at hrange
    exact hd hrange.1 hrange.2
  rw [hcons, List.cons_append,
      pv_num_step f c (cs ++ r) hws
        (fun h => hchar 'n' h (by decide)) (fun h => hchar 't' h (by decide))
        (fun h => hchar 'f' h (by decide)) (fun h => hchar '"' h (by decide))
        (fun h => hchar '[' h (by decide)) (fun h => hchar '\x7b' h (by decide)),
      ← List.cons_append, ← hcons,
      parseNum_natDigs n r (sepHead_not_digit r hr)]
  rfl

theorem parseVal_encOptNat (f : Nat) (o : Option Nat) (r : List Char) (hr : sepHead r) :
    parseVal (f + 1) (encOptNat o ++ r)
      = some ((match o with | none => JVal.jnull | some n => JVal.jnum n), r) := by
  cases o with
  | none => exact parseVal_null f r
  | some n => exact parseVal_natDigs f n r hr

theorem parseVal_encOptStr (f : Nat) (o : Option String) (r : List Char) :
    parseVal (f + 1) (encOptStr o ++ r)
      = some ((match o with | none => JVal.jnull | some s => JVal.jstr s), r) := by
  cases o with
  | none => exact parseVal_null f r
  | some s => exact parseVal_encStr f s r

/-! ### parseVal on the encodings of objects and arrays -/

theorem encListAux_map (g : β → List Char) (h : α → β) :
    ∀ xs : List α, encListAux g (xs.map h) = encListAux (fun x => g (h x)) xs := by
  intro xs
  induction xs with
  | nil => rfl
  | cons x xs ih =>
    cases xs with
    | nil => rfl
    | cons y ys =>
      simp only [List.map_cons, encListAux] at *
      rw [ih]

theorem encListAux_length_ge (enc : α → List Char) (henc : ∀ x, 1 ≤ (enc x).length) :
    ∀ xs : List α, xs.length ≤ (encListAux enc xs).length := by
  intro xs
  induction xs with
  | nil => simp [encListAux]
  | cons x xs ih =>
    cases xs with
    | nil => simpa [encListAux] using henc x
    | cons y ys =>
      have hx := henc x
      simp only [encListAux, List.length_append, List.length_cons] at *
      omega

theorem encField_head (k : String) (v : List Char) :
    encField k v = '"' :: (escBody k.data ++ ('"' :: (':' :: v))) := by
  have := encField_shape k v []
  simpa using this

theorem encListAux_field_head (x : String × List Char × JVal)
    (xs : List (String × List Char × JVal)) :
    ∃ T, encListAux (fun y => encField y.1 y.2.1) (x :: xs) = '"' :: T := by
  cases xs with
  | nil => exact ⟨_, encField_head x.1 x.2.1⟩
  | cons y ys =>
    refine ⟨escBody x.1.data ++ ('"' :: (':' :: x.2.1))
        ++ ',' :: encListAux (fun y => encField y.1 y.2.1) (y :: ys), ?_⟩
    have hsh : encListAux (fun y => encField y.1 y.2.1) (x :: y :: ys)
        = encField x.1 x.2.1 ++ ',' :: encListAux (fun y => encField y.1 y.2.1) (y :: ys) := rfl
    rw [hsh, encField_head]
    simp

theorem parseVal_objqstep (f : Nat) (T : List Char) :
    parseVal (f + 1) ('\x7b' :: ('"' :: T))
      = (parseFieldsAux (parseVal f) (('"' :: T).length + 1) ('"' :: T) []).map
          (fun p => (JVal.jobj p.1, p.2)) := rfl

theorem parseVal_encObj (f : Nat) (fs : List (String × List Char × JVal)) (r : List Char)
    (hpv : ∀ x ∈ fs, ∀ rr : List Char, sepHead rr →
        parseVal f (x.2.1 ++ rr) = some (x.2.2, rr))
    (hne : fs ≠ []) :
    parseVal (f + 1) (encObj (fs.map (fun x => (x.1, x.2.1))) ++ r)
      = some (.jobj (fs.map (fun x => (x.1, x.2.2))), r) := by
  cases fs with
  | nil => exact absurd rfl hne
  | cons x xs =>
    obtain ⟨T, hT⟩ := encListAux_field_head x xs
    have hmap : encObj ((x :: xs).map (fun z => (z.1, z.2.1))) ++ r
        = '\x7b' :: ('"' :: (T ++ ('\x7d' :: r))) := by
      simp only [encObj, encListAux_map]
      have hcomp : encListAux (fun z => encField (z.1, z.2.1).1 (z.1, z.2.1).2) (x :: xs)
          = encListAux (fun y => encField y.1 y.2.1) (x :: xs) := rfl
      rw [hcomp, hT]
      simp
    rw [hmap, parseVal_objqstep]
    have hback : ('"' : Char) :: (T ++ ('\x7d' :: r))
        = encListAux (fun y => encField y.1 y.2.1) (x :: xs) ++ ('\x7d' :: r) := by
      rw [hT]
      simp
    rw [hback]
    rw [parseFieldsAux_enc (parseVal f) (x :: xs) _ [] r hpv (by simp) ?hbound]
    case hbound =>
      have hb := encListAux_length_ge (fun y => encField y.1 y.2.1)
        (fun y => by
          show 1 ≤ (encField y.1 y.2.1).length
          rw [encField_head]
          simp) (x :: xs)
      simp only [List.length_cons] at hb
      simp only [List.length_append, List.length_cons]
      omega
    simp

theorem pv_arr_objstep (f : Nat) (X : List Char) :
    parseVal (f + 1) ('[' :: ('\x7b' :: X))
      = (parseListAux (parseVal f) (('\x7b' :: X).length + 1) ('\x7b' :: X) []).map
          (fun p => (JVal.jarr p.1, p.2)) := rfl

theorem parseVal_encList (f : Nat) (encE : α → List Char) (jE : α → JVal)
    (hhead : ∀ x : α, ∃ T, encE x = '\x7b' :: T)
    (xs : List α) (r : List Char)
    (hpv : ∀ x ∈ xs, ∀ rr : List Char, sepHead rr →
        parseVal f (encE x ++ rr) = some (jE x, rr)) :
    parseVal (f + 1) (encList encE xs ++ r) = some (.jarr (xs.map jE), r) := by
  cases xs with
  | nil =>
    have h0 : encList encE [] ++ r = '[' :: (']' :: r) := by simp [encList, encListAux]
    rw [h0]
    rfl
  | cons x xs' =>
    obtain ⟨T, hx⟩ := hhead x
    have hshape : ∃ S, encListAux encE (x :: xs') = '\x7b' :: S := by
      cases xs' with
      | nil => exact ⟨T, by simpa [encListAux] using hx⟩
      | cons y ys =>
        refine ⟨T ++ ',' :: encListAux encE (y :: ys), ?_⟩
        have hsh : encListAux encE (x :: y :: ys)
            = encE x ++ ',' :: encListAux encE (y :: ys) := rfl
        rw [hsh, hx]
        simp
    obtain ⟨S, hS⟩ := hshape
    have hfull : encList encE (x :: xs') ++ r
        = '[' :: ('\x7b' :: (S ++ (']' :: r))) := by
      simp only [encList, hS]
      simp
    rw [hfull, pv_arr_objstep]
    have hback : ('\x7b' : Char) :: (S ++ (']' :: r))
        = encListAux encE (x :: xs') ++ (']' :: r) := by
      rw [hS]
      simp
    rw [hback]
    rw [parseListAux_enc (parseVal f) encE jE (x :: xs') _ [] r hpv (by simp) ?hbound]
    case hbound =>
      have hb := encListAux_length_ge encE
        (fun y => by obtain ⟨Ty, hy⟩ := hhead y; rw [hy]; simp) (x :: xs')
      simp only [List.length_cons] at hb
      simp only [List.length_append, List.length_cons]
      omega
    simp

/-! ### The metadata object round trip -/

theorem parseVal_encComment (f : Nat) (c : Comment) (r : List Char) :
    parseVal (f + 2) (encComment c ++ r) = some (commentJ c, r) := by
  have h := parseVal_encObj (f + 1)
    [(("id"), natDigs c.id, JVal.jnum (c.id : Int)),
     (("userId"), encOptNat c.userId,
        match c.userId with | none => JVal.jnull | some n => JVal.jnum n),
     (("assigneeId"), encOptStr c.assigneeId,
        match c.assigneeId with | none => JVal.jnull | some s => JVal.jstr s),
     (("text"), encStrChars c.text, JVal.jstr c.text),
     (("createdAt"), encStrChars c.createdAt, JVal.jstr c.createdAt)] r
    ?hpv (by simp)
  case hpv =>
    intro x hx rr hrr
    simp only [List.mem_cons, List.not_mem_nil, or_false] at hx
    rcases hx with rfl | rfl | rfl | rfl | rfl
    · exact parseVal_natDigs f c.id rr hrr
    · exact parseVal_encOptNat f c.userId rr hrr
    · exact parseVal_encOptStr f c.assigneeId rr
    · exact parseVal_encStr f c.text rr
    · exact parseVal_encStr f c.createdAt rr
  exact h

theorem parseVal_encAttachment (f : Nat) (a : Attachment) (r : List Char) :
    parseVal (f + 2) (encAttachment a ++ r) = some (attachmentJ a, r) := by
  have h := parseVal_encObj (f + 1)
    [(("type"), encStrChars a.type, JVal.jstr a.type),
     (("url"), encStrChars a.url, JVal.jstr a.url),
     (("name"), encStrChars a.name, JVal.jstr a.name)] r
    ?hpv (by simp)
  case hpv =>
    intro x hx rr _
    simp only [List.mem_cons, List.not_mem_nil, or_false] at hx
    rcases hx with rfl | rfl | rfl
    · exact parseVal_encStr f a.type rr
    · exact parseVal_encStr f a.url rr
    · exact parseVal_encStr f a.name rr
  exact h

theorem encObj_head (fields : List (String × List Char)) :
    ∃ T, encObj fields = '\x7b' :: T := ⟨_, rfl⟩

theorem parseVal_commentList (f : Nat) (cs : List Comment) (r : List Char) :
    parseVal (f + 3) (encList encComment cs ++ r)
      = some (.jarr (cs.map commentJ), r) :=
  parseVal_encList (f + 2) encComment commentJ
    (fun _ => encObj_head _) cs r
    (fun x _ rr _ => parseVal_encComment f x rr)

theorem parseVal_attachmentList (f : Nat) (as : List Attachment) (r : List Char) :
    parseVal (f + 3) (encList encAttachment as ++ r)
      = some (.jarr (as.map attachmentJ), r) :=
  parseVal_encList (f + 2) encAttachment attachmentJ
    (fun _ => encObj_head _) as r
    (fun x _ rr _ => parseVal_encAttachment f x rr)

theorem parseVal_encMeta (f : Nat) (t : KTask) (r : List Char) :
    parseVal (f + 4) (encMeta t ++ r) = some (metaJ t, r) := by
  have h := parseVal_encObj (f + 3)
    [(("_pixelKanban"), ("true").data, JVal.jbool true),
     (("priority"), encStrChars t.priority, JVal.jstr t.priority),
     (("dueDate"), encStrChars t.dueDate, JVal.jstr t.dueDate),
     (("description"), encStrChars t.description, JVal.jstr t.description),
     (("comments"), encList encComment t.comments,
        JVal.jarr (t.comments.map commentJ)),
     (("attachments"), encList encAttachment t.attachments,
        JVal.jarr (t.attachments.map attachmentJ))] r
    ?hpv (by simp)
  case hpv =>
    intro x hx rr hrr
    simp only [List.mem_cons, List.not_mem_nil, or_false] at hx
    rcases hx with rfl | rfl | rfl | rfl | rfl | rfl
    · exact parseVal_true (f + 2) rr
    · exact parseVal_encStr (f + 2) t.priority rr
    · exact parseVal_encStr (f + 2) t.dueDate rr
    · exact parseVal_encStr (f + 2) t.description rr
    · exact parseVal_commentList f t.comments rr
    · exact parseVal_attachmentList f t.attachments rr
  exact h

theorem encListAux_pair_head (x : String × List Char) (xs : List (String × List Char)) :
    ∃ T, encListAux (fun f => encField f.1 f.2) (x :: xs) = '"' :: T := by
  cases xs with
  | nil => exact ⟨_, encField_head x.1 x.2⟩
  | cons y ys =>
    refine ⟨escBody x.1.data ++ ('"' :: (':' :: x.2))
        ++ ',' :: encListAux (fun f => encField f.1 f.2) (y :: ys), ?_⟩
    have hsh : encListAux (fun f => encField f.1 f.2) (x :: y :: ys)
        = encField x.1 x.2 ++ ',' :: encListAux (fun f => encField f.1 f.2) (y :: ys) := rfl
    rw [hsh, encField_head]
    simp

theorem encMeta_length (t : KTask) : 3 ≤ (encMeta t).length := by
  obtain ⟨T, hT⟩ := encListAux_pair_head
    ((("_pixelKanban") : String), ("true").data)
    [(("priority"), encStrChars t.priority),
     (("dueDate"), encStrChars t.dueDate),
     (("description"), encStrChars t.description),
     (("comments"), encList encComment t.comments),
     (("attachments"), encList encAttachment t.attachments)]
  have hm : encMeta t = '\x7b' :: ('"' :: T ++ ['\x7d']) := by
    simp only [encMeta, encObj, hT]
  rw [hm]
  simp

theorem parseJ_encMeta (t : KTask) : parseJ (String.mk (encMeta t)) = some (metaJ t) := by
  obtain ⟨f, hf⟩ : ∃ f, (encMeta t).length + 1 = f + 4 :=
    ⟨(encMeta t).length - 3, by have := encMeta_length t; omega⟩
  simp only [parseJ]
  have hlen2 : (String.mk (encMeta t)).length = (encMeta t).length := rfl
  rw [hlen2, hf]
  have hnil : encMeta t = encMeta t ++ [] := by simp
  rw [hnil, parseVal_encMeta f t []]
  rfl

theorem allGe32_append {a b : List Char} (ha : allGe32 a) (hb : allGe32 b) :
    allGe32 (a ++ b) := by
  intro d hd
  rcases List.mem_append.mp hd with h | h
  · exact ha d h
  · exact hb d h

theorem hexChar_ge32 (m : Nat) (h : m < 16) : 32 ≤ (hexChar m).toNat := by
  interval_cases m <;> decide

theorem escChar_ge32 (c : Char) : allGe32 (escChar c) := by
  by_cases h1 : c = '"'
  · rw [show escChar c = ['\\', '"'] from by simp only [escChar]; rw [if_pos h1]]
    decide
  · by_cases h2 : c = '\\'
    · rw [show escChar c = ['\\', '\\'] from by
        simp only [escChar]; rw [if_neg h1, if_pos h2]]
      decide
    · by_cases h3 : c.toNat = 8
      · rw [show escChar c = ['\\', 'b'] from by
          simp only [escChar]; rw [if_neg h1, if_neg h2, if_pos h3]]
        decide
      · by_cases h4 : c.toNat = 9
        · rw [show escChar c = ['\\', 't'] from by
            simp only [escChar]; rw [if_neg h1, if_neg h2, if_neg h3, if_pos h4]]
          decide
        · by_cases h5 : c.toNat = 10
          · rw [show escChar c = ['\\', 'n'] from by
              simp only [escChar]; rw [if_neg h1, if_neg h2, if_neg h3, if_neg h4,
                if_pos h5]]
            decide
          · by_cases h6 : c.toNat = 12
            · rw [show escChar c = ['\\', 'f'] from by
                simp only [escChar]; rw [if_neg h1, if_neg h2, if_neg h3, if_neg h4,
                  if_neg h5, if_pos h6]]
              decide
            · by_cases h7 : c.toNat = 13
              · rw [show escChar c = ['\\', 'r'] from by
                  simp only [escChar]; rw [if_neg h1, if_neg h2, if_neg h3, if_neg h4,
                    if_neg h5, if_neg h6, if_pos h7]]
                decide
              · by_cases h8 : c.toNat < 32
                · rw [show escChar c = ['\\', 'u', '0', '0', hexChar (c.toNat / 16),
                      hexChar (c.toNat % 16)] from by
                    simp only [escChar]; rw [if_neg h1, if_neg h2, if_neg h3, if_neg h4,
                      if_neg h5, if_neg h6, if_neg h7, if_pos h8]]
                  intro d hd
                  simp only [List.mem_cons, List.not_mem_nil, or_false] at hd
                  rcases hd with rfl | rfl | rfl | rfl | rfl | rfl
                  · decide
                  · decide
                  · decide
                  · decide
                  · exact hexChar_ge32 (c.toNat / 16) (by omega)
                  · exact hexChar_ge32 (c.toNat % 16) (by omega)
                · rw [show escChar c = [c] from by
                    simp only [escChar]; rw [if_neg h1, if_neg h2, if_neg h3, if_neg h4,
                      if_neg h5, if_neg h6, if_neg h7, if_neg h8]]
                  intro d hd
                  simp only [List.mem_singleton] at hd
                  subst hd
                  omega

theorem escBody_ge32 (cs : List Char) : allGe32 (escBody cs) := by
  intro d hd
  simp only [escBody] at hd
  obtain ⟨l, hl, hdl⟩ := List.mem_flatten.mp hd
  obtain ⟨c, _, rfl⟩ := List.mem_map.mp hl
  exact escChar_ge32 c d hdl

theorem encStrChars_ge32 (s : String) : allGe32 (encStrChars s) := by
  intro d hd
  simp only [encStrChars, List.mem_cons, List.mem_append, List.mem_singleton,
    List.not_mem_nil, or_false] at hd
  rcases hd with rfl | h | rfl
  · decide
  · exact escBody_ge32 s.data d h
  · decide

theorem natDigs_ge32 (n : Nat) : allGe32 (natDigs n) := by
  intro d hd
  have := digit_range d (natDigs_all_digits n d hd)
  omega

theorem encOptNat_ge32 (o : Option Nat) : allGe32 (encOptNat o) := by
  cases o with
  | none => intro d hd; simp only [encOptNat] at hd; fin_cases hd <;> decide
  | some n => exact natDigs_ge32 n

theorem encOptStr_ge32 (o : Option String) : allGe32 (encOptStr o) := by
  cases o with
  | none => intro d hd; simp only [encOptStr] at hd; fin_cases hd <;> decide
  | some s => exact encStrChars_ge32 s

theorem encField_ge32 (k : String) (v : List Char) (hv : allGe32 v) :
    allGe32 (encField k v) := by
  rw [encField_head]
  intro d hd
  simp only [List.mem_cons, List.mem_append, List.not_mem_nil, or_false] at hd
  rcases hd with rfl | h | rfl | rfl | h
  · decide
  · exact escBody_ge32 k.data d h
  · decide
  · decide
  · exact hv d h

theorem encListAux_ge32 (enc : α → List Char) :
    ∀ xs : List α, (∀ x ∈ xs, allGe32 (enc x)) → allGe32 (encListAux enc xs) := by
  intro xs
  induction xs with
  | nil => intro _ d hd; simp [encListAux] at hd
  | cons x xs ih =>
    intro hall
    cases xs with
    | nil => simpa [encListAux] using hall x (by simp)
    | cons y ys =>
      have hsh : encListAux enc (x :: y :: ys) = enc x ++ ',' :: encListAux enc (y :: ys) := rfl
      rw [hsh]
      refine allGe32_append (hall x (by simp)) ?_
      intro d hd
      simp only [List.mem_cons] at hd
      rcases hd with rfl | h
      · decide
      · exact ih (fun z hz => hall z (by simp [hz])) d h

theorem encObj_ge32 (fields : List (String × List Char))
    (h : ∀ f ∈ fields, allGe32 f.2) : allGe32 (encObj fields) := by
  intro d hd
  simp only [encObj, List.mem_cons, List.mem_append, List.mem_singleton,
    List.not_mem_nil, or_false] at hd
  rcases hd with rfl | hmem | rfl
  · decide
  · exact encListAux_ge32 _ fields
      (fun f hf => encField_ge32 f.1 f.2 (h f hf)) d hmem
  · decide

theorem encList_ge32 (enc : α → List Char) (xs : List α)
    (h : ∀ x ∈ xs, allGe32 (enc x)) : allGe32 (encList enc xs) := by
  intro d hd
  simp only [encList, List.mem_cons, List.mem_append, List.mem_singleton,
    List.not_mem_nil, or_false] at hd
  rcases hd with rfl | hmem | rfl
  · decide
  · exact encListAux_ge32 enc xs h d hmem
  · decide

theorem encComment_ge32 (c : Comment) : allGe32 (encComment c) := by
  refine encObj_ge32 _ ?_
  intro f hf
  simp only [List.mem_cons, List.not_mem_nil, or_false] at hf
  rcases hf with rfl | rfl | rfl | rfl | rfl
  · exact natDigs_ge32 c.id
  · exact encOptNat_ge32 c.userId
  · exact encOptStr_ge32 c.assigneeId
  · exact encStrChars_ge32 c.text
  · exact encStrChars_ge32 c.createdAt

theorem encAttachment_ge32 (a : Attachment) : allGe32 (encAttachment a) := by
  refine encObj_ge32 _ ?_
  intro f hf
  simp only [List.mem_cons, List.not_mem_nil, or_false] at hf
  rcases hf with rfl | rfl | rfl
  · exact encStrChars_ge32 a.type
  · exact encStrChars_ge32 a.url
  · exact encStrChars_ge32 a.name

theorem encMeta_ge32 (t : KTask) : allGe32 (encMeta t) := by
  refine encObj_ge32 _ ?_
  intro f hf
  simp only [List.mem_cons, List.not_mem_nil, or_false] at hf
  rcases hf with rfl | rfl | rfl | rfl | rfl | rfl
  · intro d hd; fin_cases hd <;> decide
  · exact encStrChars_ge32 t.priority
  · exact encStrChars_ge32 t.dueDate
  · exact encStrChars_ge32 t.description
  · exact encList_ge32 encComment t.comments (fun c _ => encComment_ge32 c)
  · exact encList_ge32 encAttachment t.attachments (fun a _ => encAttachment_ge32 a)

/-! ### The metadata capture on a formatted body -/

theorem fmt_data (t : KTask) : (formatTaskBody t).data
    = (preBody t ++ ['\n', '\n']) ++ (markerChars ++ (encMeta t ++ closeChars)) := by
  simp only [formatTaskBody]
  simp [List.append_assoc]

theorem splitFirst_marker_format (t : KTask)
    (H : ∀ i < (preBody t).length + 2,
        prefixAt markerChars ((formatTaskBody t).data.drop i) = false) :
    splitFirst markerChars (formatTaskBody t).data
      = some (preBody t ++ ['\n', '\n'], encMeta t ++ closeChars) := by
  have hL1 : (preBody t ++ ['\n', '\n']).length = (preBody t).length + 2 := by simp
  have hp : prefixAt markerChars ((formatTaskBody t).data.drop ((preBody t).length + 2))
      = true := by
    rw [fmt_data, ← hL1, List.drop_left]
    exact prefixAt_append_self markerChars _
  have h := splitFirst_eq_of_first markerChars ((preBody t).length + 2)
    (formatTaskBody t).data hp H
  rw [h]
  have ht : (formatTaskBody t).data.take ((preBody t).length + 2)
      = preBody t ++ ['\n', '\n'] := by
    rw [fmt_data, ← hL1, List.take_left]
  have hd : (formatTaskBody t).data.drop ((preBody t).length + 2 + markerChars.length)
      = encMeta t ++ closeChars := by
    rw [fmt_data]
    have hgroup : (preBody t ++ ['\n', '\n']) ++ (markerChars ++ (encMeta t ++ closeChars))
        = ((preBody t ++ ['\n', '\n']) ++ markerChars) ++ (encMeta t ++ closeChars) := by
      simp [List.append_assoc]
    rw [hgroup]
    have hlen : ((preBody t ++ ['\n', '\n']) ++ markerChars).length
        = (preBody t).length + 2 + markerChars.length := by
      simp
      omega
    rw [← hlen, List.drop_left]
  rw [ht, hd]

theorem prefixAt_head (c : Char) (p xs : List Char)
    (h : prefixAt (c :: p) xs = true) : ∃ tl, xs = c :: tl := by
  simp only [prefixAt, decide_eq_true_eq] at h
  obtain ⟨tl, htl⟩ := h
  exact ⟨p ++ tl, by rw [← htl]; simp⟩

theorem splitFirst_close_encMeta (t : KTask) :
    splitFirst closeChars (encMeta t ++ closeChars) = some (encMeta t, []) := by
  have hp : prefixAt closeChars ((encMeta t ++ closeChars).drop (encMeta t).length)
      = true := by
    rw [List.drop_left]
    have : closeChars ++ ([] : List Char) = closeChars := by simp
    rw [← this]
    exact prefixAt_append_self closeChars []
  have hmin : ∀ i < (encMeta t).length,
      prefixAt closeChars ((encMeta t ++ closeChars).drop i) = false := by
    intro i hi
    by_contra hc
    have hc2 : prefixAt closeChars ((encMeta t ++ closeChars).drop i) = true := by
      revert hc
      cases prefixAt closeChars ((encMeta t ++ closeChars).drop i) <;> simp
    have hdrop : (encMeta t ++ closeChars).drop i
        = (encMeta t).drop i ++ closeChars := by
      exact List.drop_append_of_le_length (by omega)
    have hcons : (encMeta t).drop i = (encMeta t).get ⟨i, hi⟩ :: (encMeta t).drop (i + 1) := by
      rw [List.drop_eq_getElem_cons hi]
      rfl
    obtain ⟨tl, htl⟩ := prefixAt_head '\n' [Char.ofNat 45, Char.ofNat 45, Char.ofNat 62]
      ((encMeta t ++ closeChars).drop i) hc2
    rw [hdrop, hcons, List.cons_append] at htl
    have hhead : (encMeta t).get ⟨i, hi⟩ = '\n' := (List.cons_eq_cons.mp htl).1
    have hge := encMeta_ge32 t ((encMeta t).get ⟨i, hi⟩) (List.get_mem (encMeta t) i hi)
    rw [hhead] at hge
    simp at hge
  have h := splitFirst_eq_of_first closeChars (encMeta t).length
    (encMeta t ++ closeChars) hp hmin
  rw [h]
  have ht : (encMeta t ++ closeChars).take (encMeta t).length = encMeta t :=
    List.take_left _ _
  have hd : (encMeta t ++ closeChars).drop ((encMeta t).length + closeChars.length)
      = [] := by
    rw [List.drop_append]
    simp
  rw [ht, hd]

theorem metadataCapture_format (t : KTask)
    (H : ∀ i < (preBody t).length + 2,
        prefixAt markerChars ((formatTaskBody t).data.drop i) = false) :
    metadataCapture (formatTaskBody t).data = some (encMeta t) := by
  have hstep : metadataCapture (formatTaskBody t).data
      = match splitFirst closeChars (encMeta t ++ closeChars) with
        | none => none
        | some (cap, _) => some cap := by
    simp only [metadataCapture]
    rw [splitFirst_marker_format t H]
  rw [hstep, splitFirst_close_encMeta t]

theorem parseTaskBody_format (t : KTask)
    (H : ∀ i < (preBody t).length + 2,
        prefixAt markerChars ((formatTaskBody t).data.drop i) = false) :
    parseTaskBody (some (formatTaskBody t)) = metaJ t := by
  have hne : ¬ formatTaskBody t = ("") := by
    intro h
    have hdata : (formatTaskBody t).data = [] := by rw [h]
    rw [fmt_data t] at hdata
    simp at hdata
  have hstep : parseTaskBody (some (formatTaskBody t))
      = match parseJ (String.mk (encMeta t)) with
        | some j => j
        | none => fallbackData (formatTaskBody t).data := by
    simp only [parseTaskBody]
    rw [if_neg hne, metadataCapture_format t H]
  rw [hstep, parseJ_encMeta t]

/-! ### CLAIM C1 -/

theorem jGet_metaJ (t : KTask) :
    jGet (metaJ t) ("priority") = .ok (some (.jstr t.priority)) ∧
    jGet (metaJ t) ("dueDate") = .ok (some (.jstr t.dueDate)) ∧
    jGet (metaJ t) ("description") = .ok (some (.jstr t.description)) ∧
    jGet (metaJ t) ("comments") = .ok (some (.jarr (t.comments.map commentJ))) ∧
    jGet (metaJ t) ("attachments")
      = .ok (some (.jarr (t.attachments.map attachmentJ))) := by
  refine ⟨rfl, rfl, rfl, rfl, rfl⟩

/-- CLAIM C1, amended.  Parsing the formatted body of a task recovers the
metadata object exactly - priority, due date, description, comments and
attachments - for every task whose body text before the appended metadata
block does not itself contain the metadata marker (the marker first
occurs at the appended block). -/
theorem c1_format_parse_round_trip (t : KTask)
    (H : ∀ i < (preBody t).length + 2,
        prefixAt markerChars ((formatTaskBody t).data.drop i) = false) :
    parseTaskBody (some (formatTaskBody t)) = metaJ t ∧
    jGet (parseTaskBody (some (formatTaskBody t))) ("priority")
      = .ok (some (.jstr t.priority)) ∧
    jGet (parseTaskBody (some (formatTaskBody t))) ("dueDate")
      = .ok (some (.jstr t.dueDate)) ∧
    jGet (parseTaskBody (some (formatTaskBody t))) ("description")
      = .ok (some (.jstr t.description)) ∧
    jGet (parseTaskBody (some (formatTaskBody t))) ("comments")
      = .ok (some (.jarr (t.comments.map commentJ))) ∧
    jGet (parseTaskBody (some (formatTaskBody t))) ("attachments")
      = .ok (some (.jarr (t.attachments.map attachmentJ))) := by
  have hp := parseTaskBody_format t H
  rw [hp]
  exact ⟨rfl, jGet_metaJ t⟩

set_option maxRecDepth 100000 in
/-- Witness for CLAIM C1 at a concrete task with a comment and an
attachment: the marker-free hypothesis holds and the round trip recovers
every metadata field. -/
theorem c1_format_parse_round_trip_witness :
    parseTaskBody (some (formatTaskBody tWitness)) = metaJ tWitness ∧
    jGet (parseTaskBody (some (formatTaskBody tWitness))) ("priority")
      = .ok (some (.jstr (("high")))) := by
  have h := c1_format_parse_round_trip tWitness (by decide)
  exact ⟨h.1, h.2.1⟩

set_option maxRecDepth 100000 in
/-- Counterexample to CLAIM C1 as stated: for the task tBad, whose
description contains a metadata-marker block of its own, the parse of the
formatted body does not recover the description (the lazy metadata regex
matches the marker inside the description, the JSON parse of the captured
text fails, and the regex fallback strips the markup). -/
theorem c1_round_trip_counterexample :
    ¬ jGet (parseTaskBody (some (formatTaskBody tBad))) ("description")
        = .ok (some (.jstr tBad.description)) := by
  have heval : jGet (parseTaskBody (some (formatTaskBody tBad))) ("description")
      = .ok (some (.jstr (String.mk
          (fallbackDescription (formatTaskBody tBad).data)))) := by
    rfl
  have key : ¬ String.mk (fallbackDescription (formatTaskBody tBad).data)
      = tBad.description := by decide
  intro h
  rw [heval] at h
  exact key (JVal.jstr.inj (Option.some.inj (Except.ok.inj h)))

/-! ### CLAIM C5 -/

/-- CLAIM C5.  Decoding an issue body whose embedded metadata block holds
malformed JSON never raises (parseTaskBody is a total function and the
parse failure is absorbed); it returns the best-effort fallback record
with priority medium and empty due date - the text patterns being absent -
and the body stripped of comment and bold markup as the description. -/
theorem c5_malformed_metadata_fallback (b : String) (content : List Char)
    (hm : metadataCapture b.data = some content)
    (hj : parseJ (String.mk content) = none)
    (hp : priorityCapture b.data = none)
    (hd : dueDateCapture b.data = none) :
    parseTaskBody (some b)
      = .jobj [(("priority"), .jstr (("medium"))), (("dueDate"), .jstr ((""))),
               (("description"), .jstr (String.mk (fallbackDescription b.data)))] := by
  have hne : ¬ b = ("") := by
    intro h
    have hnone : metadataCapture (("") : String).data = none := by decide
    rw [h, hnone] at hm
    exact Option.noConfusion hm
  have hstep : parseTaskBody (some b)
      = match parseJ (String.mk content) with
        | some j => j
        | none => fallbackData b.data := by
    simp only [parseTaskBody]
    rw [if_neg hne, hm]
  rw [hstep, hj]
  simp only [fallbackData, hp, hd]

set_option maxRecDepth 100000 in
/-- Witness for CLAIM C5 on a concrete body whose metadata block is the
unparsable text "not json": the result is exactly the fallback record and
no error escapes. -/
theorem c5_malformed_metadata_fallback_witness :
    parseTaskBody (some ("hello\n\n<!-- pixelKanban metadata:\nnot json\n-->"))
      = .jobj [(("priority"), .jstr (("medium"))), (("dueDate"), .jstr ((""))),
               (("description"), .jstr (("hello")))] := by
  have h := c5_malformed_metadata_fallback
    ("hello\n\n<!-- pixelKanban metadata:\nnot json\n-->")
    (("not json").data) (by decide) (by rfl) (by decide) (by decide)
  rw [h]
  rfl

theorem updateTaskAssignee_not_present (idv : Nat) (a now : String) :
    ∀ ts : List KTask, (∀ t ∈ ts, t.id ≠ idv) → updateTaskAssignee idv a now ts = ts := by
  intro ts
  induction ts with
  | nil => intro _; rfl
  | cons t ts ih =>
    intro h
    simp only [updateTaskAssignee]
    rw [if_neg (h t (by simp))]
    rw [ih (fun s hs => h s (by simp [hs]))]

theorem updateTaskAssignee_nodup (idv : Nat) (a now : String) :
    ∀ ts : List KTask, (ts.map (fun t => t.id)).Nodup →
      updateTaskAssignee idv a now ts
        = ts.map (fun t => if t.id = idv then { t with assignee := a, updatedAt := now } else t) := by
  intro ts
  induction ts with
  | nil => intro _; rfl
  | cons t ts ih =>
    intro hnodup
    simp only [List.map_cons, List.nodup_cons] at hnodup
    simp only [updateTaskAssignee, List.map_cons]
    by_cases h : t.id = idv
    · rw [if_pos h, if_pos h]
      have hrest : ∀ s ∈ ts, s.id ≠ idv := by
        intro s hs hcontra
        exact hnodup.1 (by rw [h, ← hcontra]; exact List.mem_map_of_mem _ hs)
      have : ts.map (fun s => if s.id = idv then { s with assignee := a, updatedAt := now } else s)
          = ts := by
        refine (List.map_congr_left ?_).trans (List.map_id ts)
        intro s hs
        rw [if_neg (hrest s hs)]
        rfl
      rw [this]
    · rw [if_neg h, if_neg h, ih hnodup.2]

theorem ids_map_unassign (idv : Nat) (a now : String) (ts : List KTask) :
    (ts.map (fun t => if t.id = idv then { t with assignee := a, updatedAt := now } else t)).map
        (fun t => t.id)
      = ts.map (fun t => t.id) := by
  rw [List.map_map]
  apply List.map_congr_left
  intro t _
  by_cases h : t.id = idv
  · simp [h]
  · simp [h]

theorem foldl_unassign (now : String) :
    ∀ (ids : List Nat) (ts : List KTask), (ts.map (fun t => t.id)).Nodup →
      ids.foldl (fun acc i => updateTaskAssignee i ("") now acc) ts
        = ts.map (fun t => if t.id ∈ ids then unassignTask now t else t) := by
  intro ids
  induction ids with
  | nil =>
    intro ts _
    simp only [List.foldl_nil]
    have : ts.map (fun t => if t.id ∈ ([] : List Nat) then unassignTask now t else t) = ts := by
      refine (List.map_congr_left ?_).trans (List.map_id ts)
      intro t _
      simp
    rw [this]
  | cons i is ih =>
    intro ts hnodup
    simp only [List.foldl_cons]
    rw [updateTaskAssignee_nodup i ("") now ts hnodup]
    rw [ih _ (by rw [ids_map_unassign]; exact hnodup)]
    rw [List.map_map]
    apply List.map_congr_left
    intro t _
    simp only [Function.comp]
    by_cases h : t.id = i
    · rw [if_pos h]
      by_cases h2 : ({ t with assignee := (""), updatedAt := now } : KTask).id ∈ is
      · rw [if_pos h2]
        simp [unassignTask, List.mem_cons, h]
      · rw [if_neg h2]
        simp [unassignTask, List.mem_cons, h]
    · rw [if_neg h]
      by_cases h2 : t.id ∈ is
      · rw [if_pos h2, if_pos (by simp [List.mem_cons, h2])]
      · rw [if_neg h2, if_neg (by simp [List.mem_cons, h, h2])]

/-- CLAIM C7.  Deleting a user who is the assignee of N tasks, upon
confirmation, unassigns exactly those N tasks (their assignee fields
become empty, with a fresh updatedAt stamp), removes the user from the
user list, and leaves every other task unchanged.  The task ids are
assumed unique, the store invariant (spec section 3). -/
theorem c7_delete_user_cascade (tasks : List KTask) (users : List User)
    (uid : Nat) (now : String)
    (hids : (tasks.map (fun t => t.id)).Nodup) :
    deleteUser tasks users uid true now
      = ((tasks.map (fun t => if isAssignedTo t uid then unassignTask now t else t),
          users.filter (fun u => ! u.id == uid)), true) := by
  simp only [deleteUser, Bool.not_true, Bool.and_false, Bool.false_eq_true, if_false]
  refine congrArg (fun x => ((x, users.filter (fun u => ! u.id == uid)), true)) ?_
  have hfold : (getUserAssignedTasks tasks uid).foldl
        (fun ts t => updateTaskAssignee t.id ("") now ts) tasks
      = ((getUserAssignedTasks tasks uid).map (fun t => t.id)).foldl
        (fun acc i => updateTaskAssignee i ("") now acc) tasks := by
    rw [List.foldl_map]
  rw [hfold, foldl_unassign now _ tasks hids]
  apply List.map_congr_left
  intro t ht
  have hiff : (t.id ∈ (getUserAssignedTasks tasks uid).map (fun t => t.id))
      ↔ isAssignedTo t uid = true := by
    constructor
    · intro hmem
      obtain ⟨s, hs, hsid⟩ := List.mem_map.mp hmem
      have hsmem := List.mem_of_mem_filter hs
      have hP : isAssignedTo s uid = true := by
        have := List.of_mem_filter hs
        simpa [getUserAssignedTasks, isAssignedTo] using this
      have hst : s = t := List.inj_on_of_nodup_map hids hsmem ht hsid
      rw [← hst]
      exact hP
    · intro hP
      refine List.mem_map.mpr ⟨t, ?_, rfl⟩
      simp only [getUserAssignedTasks, List.mem_filter]
      exact ⟨ht, by simpa [isAssignedTo] using hP⟩
  by_cases h : isAssignedTo t uid = true
  · rw [if_pos (hiff.mpr h), if_pos h]
  · rw [if_neg (fun hc => h (hiff.mp hc)), if_neg h]

/-- Witness for CLAIM C7: deleting user 2, assignee of exactly one of two
tasks, unassigns that task, keeps the other untouched, and removes the
user. -/
theorem c7_delete_user_cascade_witness :
    deleteUser
        [{ id := 1, title := ("a"), description := (""), status := ("todo"),
           priority := ("medium"), assignee := ("2"), dueDate := (""),
           comments := [], attachments := [], updatedAt := ("t0") },
         { id := 2, title := ("b"), description := (""), status := ("done"),
           priority := ("low"), assignee := ("7"), dueDate := (""),
           comments := [], attachments := [], updatedAt := ("t0") }]
        [{ id := 2, name := ("Ada") }, { id := 7, name := ("Bob") }] 2 true ("t1")
      = (([{ id := 1, title := ("a"), description := (""), status := ("todo"),
             priority := ("medium"), assignee := (""), dueDate := (""),
             comments := [], attachments := [], updatedAt := ("t1") },
           { id := 2, title := ("b"), description := (""), status := ("done"),
             priority := ("low"), assignee := ("7"), dueDate := (""),
             comments := [], attachments := [], updatedAt := ("t0") }],
          [{ id := 7, name := ("Bob") }]), true) := by
  rw [c7_delete_user_cascade _ _ 2 ("t1") (by decide)]
  rfl

theorem jGet_eq_jField (j : JVal) (k : String) (h : ¬ j = .jnull) :
    jGet j k = .ok (jField j k) := by
  cases j with
  | jnull => exact absurd rfl h
  | jbool b => rfl
  | jnum n => rfl
  | jstr s => rfl
  | jarr vs => rfl
  | jobj fields => rfl

theorem taskFromData_ok (n : Nat) (i : GHIssue) (td : JVal)
    (h : ¬ td = .jnull) :
    taskFromData n i td
      = .ok { id := n, title := i.title,
              description := jOr (jField td ("description")) (.jstr ("")),
              status := getKanbanStatus i.labels,
              priority := jOr (jField td ("priority")) (.jstr ("medium")),
              assignee := (match i.assignees with | [] => ("") | a :: _ => a.login),
              dueDate := jOr (jField td ("dueDate")) (.jstr ("")),
              comments := jOr (jField td ("comments")) (.jarr []),
              attachments := jOr (jField td ("attachments")) (.jarr []),
              createdAt := i.created_at, updatedAt := i.updated_at,
              githubIssueNumber := i.number, githubUrl := i.html_url } := by
  simp only [taskFromData]
  rw [jGet_eq_jField td ("description") h, jGet_eq_jField td ("priority") h,
      jGet_eq_jField td ("dueDate") h, jGet_eq_jField td ("comments") h,
      jGet_eq_jField td ("attachments") h]

theorem issueToTask_ok (n : Nat) (i : GHIssue)
    (h : ¬ parseTaskBody i.body = .jnull) :
    ∃ t : PulledTask, issueToTask n i = .ok t ∧ t.id = n := by
  have hv := taskFromData_ok n i (parseTaskBody i.body) h
  exact ⟨_, hv, rfl⟩

theorem pullTasksLoop_ok :
    ∀ issues : List GHIssue,
      (∀ i ∈ issues, ¬ parseTaskBody i.body = .jnull) →
      ∀ n : Nat, ∃ r : List PulledTask × Nat,
        pullTasksLoop n issues = .ok r ∧
        r.1.map (fun t => t.id) = seqIds n issues.length ∧
        r.2 = n + issues.length := by
  intro issues
  induction issues with
  | nil => intro _ n; exact ⟨([], n), rfl, rfl, rfl⟩
  | cons i rest ih =>
    intro h n
    obtain ⟨t, ht, htid⟩ := issueToTask_ok n i (h i (by simp))
    obtain ⟨r, hr, hrid, hrn⟩ := ih (fun j hj => h j (by simp [hj])) (n + 1)
    refine ⟨(t :: r.1, r.2), ?_, ?_, ?_⟩
    · simp only [pullTasksLoop]
      rw [ht, hr]
    · simp only [List.map_cons, List.length_cons, seqIds, htid, hrid]
    · simp only [List.length_cons, hrn]
      omega

theorem pullBoardM_allOk (rem : RemoteState) (pr : List PulledTask × Nat)
    (h : pullTasksLoop 1 (rem.issues.filter (fun i => ! i.pull_request)) = .ok pr) :
    pullBoardM allOk { remote := rem, reqCount := 0, trace := [] }
      = (.ok { tasks := pr.1, nextTaskId := pr.2 },
         { remote := rem, reqCount := 1, trace := [.getIssues] }) := by
  have h1 : pullBoardM allOk { remote := rem, reqCount := 0, trace := [] }
      = (match pullTasksLoop 1 (rem.issues.filter (fun i => ! i.pull_request)) with
         | .ok r => (.ok { tasks := r.1, nextTaskId := r.2 },
             ({ remote := rem, reqCount := 1, trace := [.getIssues] } : RState))
         | .error _ => (.error .typeError,
             ({ remote := rem, reqCount := 1, trace := [.getIssues] } : RState))) := rfl
  rw [h1, h]

theorem pullBoardApp_ok (st : GBState) (htok : ¬ st.accessToken = (""))
    (r : Repo) (hrepo : st.selectedRepo = some r) (pr : List PulledTask × Nat)
    (h : pullTasksLoop 1 (st.remote.issues.filter (fun i => ! i.pull_request)) = .ok pr) :
    pullBoardApp st allOk
      = ({ st with syncStatus := ("success") },
         .ok { tasks := pr.1, nextTaskId := pr.2 }, [.getIssues]) := by
  have h1 : pullBoardApp st allOk
      = (match pullBoardM allOk { remote := st.remote, reqCount := 0, trace := [] } with
         | (.ok res, rs) =>
           ({ st with remote := rs.remote, syncStatus := ("success") }, .ok res, rs.trace)
         | (.error e, rs) =>
           ({ st with remote := rs.remote, syncStatus := ("error") }, .error e, rs.trace)) := by
    simp only [pullBoardApp]
    rw [if_neg htok, hrepo]
  rw [h1, pullBoardM_allOk st.remote pr h]

/-- CLAIM C3, amended.  With a token and a selected repository, under a
responsive remote, and provided no fetched issue body carries a metadata
block parsing to the JSON value null (the counterexample's case, where
the pull loop throws a TypeError and the pull fails), pullBoard succeeds
after the single issues fetch and produces a full replacement task list:
one task per non-pull-request issue, with fresh sequential local ids
starting at 1 and the next-id counter set one past the last; the result
depends only on the remote state, and applying it to the board replaces
the whole local task list regardless of its previous contents. -/
theorem c3_pull_full_replacement (st : GBState) (r : Repo)
    (htok : ¬ st.accessToken = (""))
    (hrepo : st.selectedRepo = some r)
    (hnn : ∀ i ∈ st.remote.issues.filter (fun i => ! i.pull_request),
      ¬ parseTaskBody i.body = .jnull) :
    ∃ res : PullResult,
      pullBoardApp st allOk
          = ({ st with syncStatus := ("success") }, .ok res, [.getIssues]) ∧
        res.tasks.map (fun t => t.id)
          = seqIds 1 (st.remote.issues.filter (fun i => ! i.pull_request)).length ∧
        res.nextTaskId = (st.remote.issues.filter (fun i => ! i.pull_request)).length + 1 ∧
        (∀ st2 : GBState, st2.remote = st.remote → ¬ st2.accessToken = ("") →
          st2.selectedRepo = some r →
          (pullBoardApp st2 allOk).2 = (pullBoardApp st allOk).2) ∧
        (∀ b b2 : PulledBoard, applyPullResult b res = applyPullResult b2 res) ∧
        (∀ b : PulledBoard, (applyPullResult b res).tasks = res.tasks ∧
          (applyPullResult b res).nextTaskId = res.nextTaskId) := by
  obtain ⟨pr, hpr, hids, hn⟩ := pullTasksLoop_ok _ hnn 1
  refine ⟨{ tasks := pr.1, nextTaskId := pr.2 },
    pullBoardApp_ok st htok r hrepo pr hpr, hids, ?_, ?_, ?_, ?_⟩
  · show pr.2 = (st.remote.issues.filter (fun i => ! i.pull_request)).length + 1
    rw [hn]
    omega
  · intro st2 h2 ht2 hr2
    rw [pullBoardApp_ok st2 ht2 r hr2 pr (by rw [h2]; exact hpr),
        pullBoardApp_ok st htok r hrepo pr hpr]
  · intro b b2
    rfl
  · intro b
    exact ⟨rfl, rfl⟩

/-- Witness for CLAIM C3: a connected state with one ordinary issue and
one pull request. -/
theorem c3_pull_full_replacement_witness :
    ∃ res : PullResult,
      pullBoardApp
          { accessToken := ("tok"), selectedRepo := some { owner := ("o"), name := ("r") },
            localSt := { tasks := [], nextTaskId := 9, users := [] },
            remote :=
              { labels := [],
                issues :=
                  [{ number := 5, title := ("a"), body := none, labels := [], assignees := [],
                     pull_request := false, created_at := ("c"), updated_at := ("u"),
                     html_url := ("h") },
                   { number := 6, title := ("pr"), body := none, labels := [], assignees := [],
                     pull_request := true, created_at := ("c"), updated_at := ("u"),
                     html_url := ("h") }],
                nextIssueNumber := 7, now := ("n") },
            syncStatus := ("") } allOk
          = ({ accessToken := ("tok"), selectedRepo := some { owner := ("o"), name := ("r") },
               localSt := { tasks := [], nextTaskId := 9, users := [] },
               remote :=
                 { labels := [],
                   issues :=
                     [{ number := 5, title := ("a"), body := none, labels := [], assignees := [],
                        pull_request := false, created_at := ("c"), updated_at := ("u"),
                        html_url := ("h") },
                      { number := 6, title := ("pr"), body := none, labels := [], assignees := [],
                        pull_request := true, created_at := ("c"), updated_at := ("u"),
                        html_url := ("h") }],
                   nextIssueNumber := 7, now := ("n") },
               syncStatus := ("success") }, .ok res, [.getIssues]) ∧
        res.tasks.map (fun t => t.id) = seqIds 1 1 ∧
        res.nextTaskId = 1 + 1 ∧
        (∀ st2 : GBState,
          st2.remote
              = { labels := [],
                  issues :=
                    [{ number := 5, title := ("a"), body := none, labels := [], assignees := [],
                       pull_request := false, created_at := ("c"), updated_at := ("u"),
                       html_url := ("h") },
                     { number := 6, title := ("pr"), body := none, labels := [], assignees := [],
                       pull_request := true, created_at := ("c"), updated_at := ("u"),
                       html_url := ("h") }],
                  nextIssueNumber := 7, now := ("n") } →
          ¬ st2.accessToken = ("") →
          st2.selectedRepo = some { owner := ("o"), name := ("r") } →
          (pullBoardApp st2 allOk).2
            = (pullBoardApp
                { accessToken := ("tok"), selectedRepo := some { owner := ("o"), name := ("r") },
                  localSt := { tasks := [], nextTaskId := 9, users := [] },
                  remote :=
                    { labels := [],
                      issues :=
                        [{ number := 5, title := ("a"), body := none, labels := [], assignees := [],
                           pull_request := false, created_at := ("c"), updated_at := ("u"),
                           html_url := ("h") },
                         { number := 6, title := ("pr"), body := none, labels := [], assignees := [],
                           pull_request := true, created_at := ("c"), updated_at := ("u"),
                           html_url := ("h") }],
                      nextIssueNumber := 7, now := ("n") },
                  syncStatus := ("") } allOk).2) ∧
        (∀ b b2 : PulledBoard, applyPullResult b res = applyPullResult b2 res) ∧
        (∀ b : PulledBoard, (applyPullResult b res).tasks = res.tasks ∧
          (applyPullResult b res).nextTaskId = res.nextTaskId) :=
  c3_pull_full_replacement _ { owner := ("o"), name := ("r") } (by decide) rfl
    (fun i hi => by
      have h5 : i
          = { number := 5, title := ("a"), body := none, labels := [],
              assignees := [], pull_request := false, created_at := ("c"),
              updated_at := ("u"), html_url := ("h") } := List.mem_singleton.mp hi
      intro hh
      rw [h5] at hh
      exact JVal.noConfusion hh)

/-- Counterexample to CLAIM C3 as stated: for a connected state over a
responsive remote holding one ordinary issue whose metadata block is the
JSON literal null, the pull does not produce a replacement task list at
all - parseTaskBody returns the parsed null, the loop's property access
throws, and pullBoard rethrows, ending with syncStatus error. -/
theorem c3_pull_full_replacement_counterexample :
    pullBoardApp c3BadSt allOk
      = ({ c3BadSt with syncStatus := ("error") }, .error .typeError, [.getIssues]) ∧
    parseTaskBody (some c3NullBody) = .jnull :=
  ⟨rfl, rfl⟩

/-! ### CLAIM C6 -/

/-- CLAIM C6.  A remote issue titled "Fix login bug" with labels
"to do" and "high-priority" and a body with no embedded metadata block
pulls into a local task with status "todo", priority "medium" (the
fallback default: "high-priority" matches neither a status label with
precedence nor the Priority text pattern), and description equal to the
raw body. -/
theorem c6_pull_fallback_scenario
    (tok : String) (htok : ¬ tok = ("")) (r : Repo) (L : LocalState)
    (rl : List GHLabel) (k : Nat) (tsn ss : String)
    (n : Nat) (ca ua url : String) (b : String)
    (hne : ¬ b = (""))
    (hm : metadataCapture b.data = none)
    (hp : priorityCapture b.data = none)
    (hd : dueDateCapture b.data = none)
    (hdesc : fallbackDescription b.data = b.data) :
    pullBoardApp
        { accessToken := tok, selectedRepo := some r, localSt := L,
          remote :=
            { labels := rl,
              issues :=
                [{ number := n, title := ("Fix login bug"), body := some b,
                   labels := [{ name := ("to do"), color := ("") },
                              { name := ("high-priority"), color := ("") }],
                   assignees := [], pull_request := false,
                   created_at := ca, updated_at := ua, html_url := url }],
              nextIssueNumber := k, now := tsn },
          syncStatus := ss } allOk
      = ({ accessToken := tok, selectedRepo := some r, localSt := L,
           remote :=
             { labels := rl,
               issues :=
                 [{ number := n, title := ("Fix login bug"), body := some b,
                    labels := [{ name := ("to do"), color := ("") },
                               { name := ("high-priority"), color := ("") }],
                    assignees := [], pull_request := false,
                    created_at := ca, updated_at := ua, html_url := url }],
               nextIssueNumber := k, now := tsn },
           syncStatus := ("success") },
         .ok { tasks := [{ id := 1, title := ("Fix login bug"),
                           description := .jstr b, status := ("todo"),
                           priority := .jstr ("medium"), assignee := (""),
                           dueDate := .jstr (""), comments := .jarr [],
                           attachments := .jarr [],
                           createdAt := ca, updatedAt := ua,
                           githubIssueNumber := n, githubUrl := url }],
               nextTaskId := 2 },
         [.getIssues]) := by
  have htd : parseTaskBody (some b)
      = .jobj [(("priority"), .jstr ("medium")), (("dueDate"), .jstr ("")),
               (("description"), .jstr b)] := by
    simp only [parseTaskBody, fallbackData]
    rw [if_neg hne, hm, hp, hd, hdesc]
  have hjdesc : jOr (some (JVal.jstr b)) (.jstr ("")) = .jstr b := by
    simp [jOr, jTruthy, hne]
  have hfd : jField (JVal.jobj [(("priority"), .jstr ("medium")), (("dueDate"), .jstr ("")),
      (("description"), .jstr b)]) ("description") = some (.jstr b) := rfl
  have htask : issueToTask 1
        { number := n, title := ("Fix login bug"), body := some b,
          labels := [{ name := ("to do"), color := ("") },
                     { name := ("high-priority"), color := ("") }],
          assignees := [], pull_request := false,
          created_at := ca, updated_at := ua, html_url := url }
      = .ok { id := 1, title := ("Fix login bug"),
              description := .jstr b, status := ("todo"),
              priority := .jstr ("medium"), assignee := (""),
              dueDate := .jstr (""), comments := .jarr [],
              attachments := .jarr [],
              createdAt := ca, updatedAt := ua,
              githubIssueNumber := n, githubUrl := url } := by
    show taskFromData 1
        { number := n, title := ("Fix login bug"), body := some b,
          labels := [{ name := ("to do"), color := ("") },
                     { name := ("high-priority"), color := ("") }],
          assignees := [], pull_request := false,
          created_at := ca, updated_at := ua, html_url := url }
        (parseTaskBody (some b)) = _
    rw [htd, taskFromData_ok 1 _ _ (fun hh => JVal.noConfusion hh), hfd, hjdesc]
    rfl
  have hl : pullTasksLoop 1
      (List.filter (fun i => ! i.pull_request)
        [{ number := n, title := ("Fix login bug"), body := some b,
           labels := [{ name := ("to do"), color := ("") },
                      { name := ("high-priority"), color := ("") }],
           assignees := [], pull_request := false,
           created_at := ca, updated_at := ua, html_url := url }])
      = .ok ([{ id := 1, title := ("Fix login bug"),
                description := .jstr b, status := ("todo"),
                priority := .jstr ("medium"), assignee := (""),
                dueDate := .jstr (""), comments := .jarr [],
                attachments := .jarr [],
                createdAt := ca, updatedAt := ua,
                githubIssueNumber := n, githubUrl := url }], 2) := by
    show (match issueToTask 1
          { number := n, title := ("Fix login bug"), body := some b,
            labels := [{ name := ("to do"), color := ("") },
                       { name := ("high-priority"), color := ("") }],
            assignees := [], pull_request := false,
            created_at := ca, updated_at := ua, html_url := url } with
        | Except.error e => (Except.error e : Except Unit (List PulledTask × Nat))
        | Except.ok t =>
          match pullTasksLoop 2 ([] : List GHIssue) with
          | Except.error e => Except.error e
          | Except.ok r => Except.ok (t :: r.1, r.2)) = _
    rw [htask]
    rfl
  rw [pullBoardApp_ok _ htok r rfl _ hl]

/-- Witness for CLAIM C6 at a concrete plain-text body. -/
theorem c6_pull_fallback_scenario_witness :
    pullBoardApp
        { accessToken := ("tok"), selectedRepo := some { owner := ("o"), name := ("r") },
          localSt := { tasks := [], nextTaskId := 4, users := [] },
          remote :=
            { labels := [],
              issues :=
                [{ number := 12, title := ("Fix login bug"), body := some ("Login fails on submit"),
                   labels := [{ name := ("to do"), color := ("") },
                              { name := ("high-priority"), color := ("") }],
                   assignees := [], pull_request := false,
                   created_at := ("c1"), updated_at := ("u1"), html_url := ("h1") }],
              nextIssueNumber := 13, now := ("n1") },
          syncStatus := ("") } allOk
      = ({ accessToken := ("tok"), selectedRepo := some { owner := ("o"), name := ("r") },
           localSt := { tasks := [], nextTaskId := 4, users := [] },
           remote :=
             { labels := [],
               issues :=
                 [{ number := 12, title := ("Fix login bug"), body := some ("Login fails on submit"),
                    labels := [{ name := ("to do"), color := ("") },
                               { name := ("high-priority"), color := ("") }],
                    assignees := [], pull_request := false,
                    created_at := ("c1"), updated_at := ("u1"), html_url := ("h1") }],
               nextIssueNumber := 13, now := ("n1") },
           syncStatus := ("success") },
         .ok { tasks := [{ id := 1, title := ("Fix login bug"),
                           description := .jstr ("Login fails on submit"), status := ("todo"),
                           priority := .jstr ("medium"), assignee := (""),
                           dueDate := .jstr (""), comments := .jarr [],
                           attachments := .jarr [],
                           createdAt := ("c1"), updatedAt := ("u1"),
                           githubIssueNumber := 12, githubUrl := ("h1") }],
               nextTaskId := 2 },
         [.getIssues]) :=
  c6_pull_fallback_scenario ("tok") (by decide) { owner := ("o"), name := ("r") }
    { tasks := [], nextTaskId := 4, users := [] } [] 13 ("n1") ("")
    12 ("c1") ("u1") ("h1") ("Login fails on submit")
    (by decide) (by decide) (by decide) (by decide) (by decide)

theorem onlyRRF_pure (a : α) : OnlyRRF (SyncM.pure a) := by
  intro o st e st' h
  simp [SyncM.pure] at h

theorem onlyRRF_mkReq (r : RemoteReq) (f : RemoteState → α × RemoteState) :
    OnlyRRF (mkReq r f) := by
  intro o st e st' h
  simp only [mkReq] at h
  cases ho : o st.reqCount with
  | ok =>
    rw [ho] at h
    simp at h
  | fail s m =>
    rw [ho] at h
    injection h with h1 h2
    injection h1 with h3
    exact ⟨s, errText s m, h3.symm⟩

theorem onlyRRF_bind (m : SyncM α) (f : α → SyncM β)
    (hm : OnlyRRF m) (hf : ∀ a, OnlyRRF (f a)) : OnlyRRF (SyncM.bind m f) := by
  intro o st e st' h
  simp only [SyncM.bind] at h
  cases hmo : m o st with
  | mk res st2 =>
    rw [hmo] at h
    cases res with
    | ok a => exact hf a o st2 e st' h
    | error e2 =>
      injection h with h1 h2
      injection h1 with h3
      exact h3 ▸ hm o st e2 st2 hmo

theorem onlyRRF_ensureLabels (ex : List GHLabel) :
    ∀ ls : List String, OnlyRRF (ensureLabelsM ex ls) := by
  intro ls
  induction ls with
  | nil => exact onlyRRF_pure ()
  | cons s rest ih =>
    intro o st e st' h
    simp only [ensureLabelsM] at h
    by_cases hc : hasLabel ex s
    · rw [if_pos hc] at h
      exact ih o st e st' h
    · rw [if_neg hc] at h
      exact onlyRRF_bind _ _ (onlyRRF_mkReq _ _) (fun _ => ih) o st e st' h

theorem onlyRRF_pushTask (users : List User) (ex : List GHIssue)
    (upd : List GHLabel) (t : KTask) : OnlyRRF (pushTaskM users ex upd t) := by
  intro o st e st' h
  simp only [pushTaskM] at h
  cases hf : ex.find? (fun i => i.title == t.title) with
  | some issue =>
    rw [hf] at h
    exact onlyRRF_mkReq _ _ o st e st' h
  | none =>
    rw [hf] at h
    exact onlyRRF_mkReq _ _ o st e st' h

theorem onlyRRF_pushTasks (users : List User) (ex : List GHIssue)
    (upd : List GHLabel) : ∀ ts : List KTask, OnlyRRF (pushTasksM users ex upd ts) := by
  intro ts
  induction ts with
  | nil => exact onlyRRF_pure ()
  | cons t rest ih =>
    exact onlyRRF_bind _ _ (onlyRRF_pushTask users ex upd t) (fun _ => ih)

theorem onlyRRF_pushBoard (tasks : List KTask) (users : List User) :
    OnlyRRF (pushBoardM tasks users) := by
  refine onlyRRF_bind _ _ (onlyRRF_mkReq _ _) (fun ex => ?_)
  refine onlyRRF_bind _ _ (onlyRRF_mkReq _ _) (fun exL => ?_)
  refine onlyRRF_bind _ _ (onlyRRF_ensureLabels exL statusLabels) (fun _ => ?_)
  refine onlyRRF_bind _ _ (onlyRRF_mkReq _ _) (fun updL => ?_)
  exact onlyRRF_bind _ _ (onlyRRF_pushTasks users ex updL tasks)
    (fun _ => onlyRRF_pure _)

theorem pullBoard_error_cases :
    ∀ (o : Oracle) (st : RState) (e : SyncError) (st' : RState),
      pullBoardM o st = (.error e, st') →
      (∃ s msg, e = .remoteRequestFailed s msg) ∨ e = .typeError := by
  intro o st e st' h
  simp only [pullBoardM, SyncM.bind] at h
  cases hmo : getRepoIssuesM o st with
  | mk res st2 =>
    rw [hmo] at h
    cases res with
    | ok issues =>
      have h2 : (match pullTasksLoop 1 issues with
          | .ok r => ((.ok { tasks := r.1, nextTaskId := r.2 } :
              Except SyncError PullResult), st2)
          | .error _ => (.error .typeError, st2))
          = ((.error e : Except SyncError PullResult), st') := h
      cases hl : pullTasksLoop 1 issues with
      | ok r =>
        rw [hl] at h2
        simp at h2
      | error u =>
        rw [hl] at h2
        injection h2 with ha hb
        injection ha with hc
        exact Or.inr hc.symm
    | error e2 =>
      have h2 : ((.error e2 : Except SyncError PullResult), st2) = (.error e, st') := h
      injection h2 with ha hb
      injection ha with hc
      exact Or.inl (hc ▸ onlyRRF_mkReq _ _ o st e2 st2 hmo)

theorem pushBoardM_firstFail (tasks : List KTask) (users : List User)
    (o : Oracle) (rem : RemoteState) (s : Nat) (m : Option String)
    (ho : o 0 = .fail s m) :
    pushBoardM tasks users o { remote := rem, reqCount := 0, trace := [] }
      = (.error (.remoteRequestFailed s (errText s m)),
         { remote := rem, reqCount := 1, trace := [.getIssues] }) := by
  simp only [pushBoardM, SyncM.bind, getRepoIssuesM, mkReq]
  rw [ho]
  rfl

theorem pullBoardM_firstFail (o : Oracle) (rem : RemoteState) (s : Nat)
    (m : Option String) (ho : o 0 = .fail s m) :
    pullBoardM o { remote := rem, reqCount := 0, trace := [] }
      = (.error (.remoteRequestFailed s (errText s m)),
         { remote := rem, reqCount := 1, trace := [.getIssues] }) := by
  simp only [pullBoardM, SyncM.bind, getRepoIssuesM, mkReq]
  rw [ho]
  rfl

/-- CLAIM C8.  Typed failure preconditions: with no access token both
push and pull fail with the not-connected error before any remote
request; with a token but no selected repository both fail with the
no-repository error before any remote request; past the guards, every
propagated push error is a RemoteRequestFailed, and every propagated
pull error is a RemoteRequestFailed or the TypeError of the null
metadata crash (which pullBoard's catch rethrows unchanged); and a
non-2xx response on a request propagates its status and message to the
caller. -/
theorem c8_typed_failure_preconditions :
    (∀ (st : GBState) (o : Oracle), st.accessToken = ("") →
      pushBoardApp st o = (st, .error .notConnected, []) ∧
      pullBoardApp st o = (st, .error .notConnected, [])) ∧
    (∀ (st : GBState) (o : Oracle), ¬ st.accessToken = ("") → st.selectedRepo = none →
      pushBoardApp st o = (st, .error .noRepoSelected, []) ∧
      pullBoardApp st o = (st, .error .noRepoSelected, [])) ∧
    (∀ (st : GBState) (o : Oracle) (e : SyncError),
      (pushBoardApp st o).2.1 = .error e →
      ¬ st.accessToken = ("") → (∃ r, st.selectedRepo = some r) →
      ∃ s msg, e = .remoteRequestFailed s msg) ∧
    (∀ (st : GBState) (o : Oracle) (e : SyncError),
      (pullBoardApp st o).2.1 = .error e →
      ¬ st.accessToken = ("") → (∃ r, st.selectedRepo = some r) →
      (∃ s msg, e = .remoteRequestFailed s msg) ∨ e = .typeError) ∧
    (∀ (st : GBState) (o : Oracle) (r : Repo) (s : Nat) (m : Option String),
      ¬ st.accessToken = ("") → st.selectedRepo = some r → o 0 = .fail s m →
      (pushBoardApp st o).2.1 = .error (.remoteRequestFailed s (errText s m)) ∧
      (pullBoardApp st o).2.1 = .error (.remoteRequestFailed s (errText s m))) := by
  refine ⟨?_, ?_, ?_, ?_, ?_⟩
  · intro st o htok
    constructor
    · simp only [pushBoardApp]
      rw [if_pos htok]
    · simp only [pullBoardApp]
      rw [if_pos htok]
  · intro st o htok hrepo
    constructor
    · simp only [pushBoardApp]
      rw [if_neg htok, hrepo]
    · simp only [pullBoardApp]
      rw [if_neg htok, hrepo]
  · intro st o e h htok hrep
    obtain ⟨r, hrepo⟩ := hrep
    simp only [pushBoardApp] at h
    rw [if_neg htok, hrepo] at h
    cases hm : pushBoardM st.localSt.tasks st.localSt.users o
        { remote := st.remote, reqCount := 0, trace := [] } with
    | mk res rs =>
      rw [hm] at h
      cases res with
      | ok a => simp at h
      | error e2 =>
        have he : e2 = e := by
          simpa using h
        exact he ▸ onlyRRF_pushBoard _ _ o _ e2 rs hm
  · intro st o e h htok hrep
    obtain ⟨r, hrepo⟩ := hrep
    simp only [pullBoardApp] at h
    rw [if_neg htok, hrepo] at h
    cases hm : pullBoardM o { remote := st.remote, reqCount := 0, trace := [] } with
    | mk res rs =>
      rw [hm] at h
      cases res with
      | ok a => simp at h
      | error e2 =>
        have he : e2 = e := by
          simpa using h
        exact he ▸ pullBoard_error_cases o _ e2 rs hm
  · intro st o r s m htok hrepo ho
    constructor
    · simp only [pushBoardApp]
      rw [if_neg htok, hrepo, pushBoardM_firstFail _ _ o st.remote s m ho]
    · simp only [pullBoardApp]
      rw [if_neg htok, hrepo, pullBoardM_firstFail o st.remote s m ho]

/-- Witness for CLAIM C8 at the three concrete states. -/
theorem c8_typed_failure_preconditions_witness :
    (pushBoardApp c8StNoTok allOk = (c8StNoTok, .error .notConnected, []) ∧
     pullBoardApp c8StNoTok allOk = (c8StNoTok, .error .notConnected, [])) ∧
    (pushBoardApp c8StNoRepo allOk = (c8StNoRepo, .error .noRepoSelected, []) ∧
     pullBoardApp c8StNoRepo allOk = (c8StNoRepo, .error .noRepoSelected, [])) ∧
    (∃ s msg, SyncError.remoteRequestFailed 500 (("GitHub API error: 500"))
      = .remoteRequestFailed s msg) ∧
    ((∃ s msg, SyncError.remoteRequestFailed 500 (("GitHub API error: 500"))
      = .remoteRequestFailed s msg) ∨
      SyncError.remoteRequestFailed 500 (("GitHub API error: 500")) = .typeError) ∧
    ((pushBoardApp c8StConn failOracle).2.1
        = .error (.remoteRequestFailed 500 (("GitHub API error: 500"))) ∧
     (pullBoardApp c8StConn failOracle).2.1
        = .error (.remoteRequestFailed 500 (("GitHub API error: 500")))) :=
  ⟨c8_typed_failure_preconditions.1 c8StNoTok allOk rfl,
   c8_typed_failure_preconditions.2.1 c8StNoRepo allOk (by decide) rfl,
   c8_typed_failure_preconditions.2.2.1 c8StConn failOracle
     (.remoteRequestFailed 500 (("GitHub API error: 500")))
     rfl (by decide) ⟨{ owner := ("o"), name := ("r") }, rfl⟩,
   c8_typed_failure_preconditions.2.2.2.1 c8StConn failOracle
     (.remoteRequestFailed 500 (("GitHub API error: 500")))
     rfl (by decide) ⟨{ owner := ("o"), name := ("r") }, rfl⟩,
   c8_typed_failure_preconditions.2.2.2.2 c8StConn failOracle
     { owner := ("o"), name := ("r") } 500 none (by decide) rfl rfl⟩

/-- CLAIM C9.  Push never mutates the local store: for every state and
every remote behavior the local task and user stores are exactly their
pre-operation state.  On a mid-push failure the push aborts with the
triggering error, but issues already written are not rolled back: in the
concrete three-task push failing on the second creation, issue "A"
remains committed remotely, the third task is never attempted (nine
requests in the trace, not ten), and the local store still holds all
three tasks. -/
theorem c9_push_local_frame :
    (∀ (st : GBState) (o : Oracle), (pushBoardApp st o).1.localSt = st.localSt) ∧
    (pushBoardApp c9St c9Oracle).2.1
        = .error (.remoteRequestFailed 500 (("GitHub API error: 500"))) ∧
    (pushBoardApp c9St c9Oracle).1.remote.issues.map (fun i => i.title) = [("A")] ∧
    (pushBoardApp c9St c9Oracle).2.2.length = 9 ∧
    (pushBoardApp c9St c9Oracle).1.localSt.tasks.map (fun t => t.title)
        = [("A"), ("B"), ("C")] := by
  refine ⟨?_, ?_, ?_, ?_, ?_⟩
  · intro st o
    simp only [pushBoardApp]
    by_cases htok : st.accessToken = ("")
    · rw [if_pos htok]
    · rw [if_neg htok]
      cases hrepo : st.selectedRepo with
      | none => rfl
      | some r =>
        cases hm : pushBoardM st.localSt.tasks st.localSt.users o
            { remote := st.remote, reqCount := 0, trace := [] } with
        | mk res rs =>
          cases res with
          | ok a => rfl
          | error e => rfl
  · rfl
  · rfl
  · rfl
  · rfl

/-! ### CLAIM C10 -/

theorem mkReq_ok (r : RemoteReq) (f : RemoteState → α × RemoteState)
    (o : Oracle) (st : RState) (ho : o st.reqCount = .ok) :
    mkReq r f o st
      = (.ok (f st.remote).1,
         { remote := (f st.remote).2, reqCount := st.reqCount + 1,
           trace := st.trace ++ [r] }) := by
  simp only [mkReq]
  rw [ho]

/-- CLAIM C10.  Unresolved assignees are dropped, not errors: a task
whose assignee is a numeric id with no local mapping to a GitHub
username still has its issue created or updated by the push, with no
assignees set, instead of failing. -/
theorem c10_unresolved_assignee_dropped
    (users : List User) (ex : List GHIssue) (upd : List GHLabel) (t : KTask)
    (o : Oracle) (st : RState)
    (ho : o st.reqCount = .ok)
    (hne : ¬ t.assignee = (""))
    (hdig : allDigits t.assignee = true)
    (hlookup : ∀ u : User, getUserById users (jsParseInt t.assignee) = some u →
      u.githubUsername = none ∨ u.githubUsername = some ((""))) :
    ∃ st' : RState,
      pushTaskM users ex upd t o st = (.ok (), st') ∧
      ∃ e : RemoteReq, st'.trace = st.trace ++ [e] ∧
        ((∃ ti bo ls, e = .createIssue ti bo ls []) ∨
         (∃ n u, e = .updateIssue n u ∧ u.assignees = none)) := by
  have hlog : getAssigneeLogin users t.assignee = none := by
    simp only [getAssigneeLogin]
    rw [if_neg hne, hdig]
    simp only [Bool.not_true, Bool.false_eq_true, if_false]
    cases hu : getUserById users (jsParseInt t.assignee) with
    | none => rfl
    | some u =>
      show (match u.githubUsername with
            | some g => if g = ("") then none else some g
            | none => none) = none
      rcases hlookup u hu with h | h
      · rw [h]
      · rw [h]
        rfl
  have hassign : (if t.assignee = ("") then (none : Option (List String))
      else match getAssigneeLogin users t.assignee with
           | some u => some [u]
           | none => none) = none := by
    rw [if_neg hne, hlog]
  have hcassign : (if t.assignee = ("") then ([] : List String)
      else ((getAssigneeLogin users t.assignee).toList).filter (fun s => ! s == (""))) = [] := by
    rw [if_neg hne, hlog]
    rfl
  cases hf : ex.find? (fun i => i.title == t.title) with
  | some issue =>
    have hstep : pushTaskM users ex upd t o st
        = updateIssueM issue.number
            { body := formatTaskBody t,
              labels := ((lookupLabelName upd (getStatusLabel t.status)).toList).filter
                (fun s => ! s == ("")),
              assignees := none } o st := by
      simp only [pushTaskM]
      rw [hf, hassign]
    rw [hstep]
    simp only [updateIssueM]
    rw [mkReq_ok _ _ o st ho]
    exact ⟨_, rfl, _, rfl, Or.inr ⟨issue.number, _, rfl, rfl⟩⟩
  | none =>
    have hstep : pushTaskM users ex upd t o st
        = createIssueM t.title (formatTaskBody t)
            (((lookupLabelName upd (getStatusLabel t.status)).toList).filter
              (fun s => ! s == (""))) [] o st := by
      simp only [pushTaskM]
      rw [hf, hcassign]
    rw [hstep]
    simp only [createIssueM]
    rw [mkReq_ok _ _ o st ho]
    exact ⟨_, rfl, _, rfl, Or.inl ⟨t.title, formatTaskBody t, _, rfl⟩⟩

/-- Witness for CLAIM C10: a task assigned to user id 5, present in the
store but with no GitHub username, in a repository with no matching
issue. -/
theorem c10_unresolved_assignee_dropped_witness :
    ∃ st' : RState,
      pushTaskM [{ id := 5, name := ("Ada") }] [] []
          { id := 1, title := ("A"), description := (""), status := ("todo"),
            priority := ("medium"), assignee := ("5"), dueDate := (""),
            comments := [], attachments := [] } allOk
          { remote := { labels := [], issues := [], nextIssueNumber := 1, now := ("T") },
            reqCount := 0, trace := [] }
        = (.ok (), st') ∧
      ∃ e : RemoteReq, st'.trace = [] ++ [e] ∧
        ((∃ ti bo ls, e = .createIssue ti bo ls []) ∨
         (∃ n u, e = .updateIssue n u ∧ u.assignees = none)) :=
  c10_unresolved_assignee_dropped [{ id := 5, name := ("Ada") }] [] []
    { id := 1, title := ("A"), description := (""), status := ("todo"),
      priority := ("medium"), assignee := ("5"), dueDate := (""),
      comments := [], attachments := [] } allOk
    { remote := { labels := [], issues := [], nextIssueNumber := 1, now := ("T") },
      reqCount := 0, trace := [] }
    rfl (by decide) (by decide)
    (fun u hu => Or.inl (by
      have : ({ id := 5, name := ("Ada") } : User) = u := Option.some.inj hu
      rw [← this]))

theorem hasLabel_of_mem (labels : List GHLabel) (l : GHLabel) (k : String)
    (hmem : l ∈ labels) (hk : (jsToLower l.name == k) = true) :
    hasLabel labels k = true :=
  List.any_eq_true.mpr ⟨l, hmem, hk⟩

theorem bind_eq_of (m : SyncM α) (f : α → SyncM β) (o : Oracle) (st st1 : RState)
    (a : α) (hm : m o st = (.ok a, st1)) (r : Except SyncError β × RState)
    (hf : f a o st1 = r) : SyncM.bind m f o st = r := by
  simp only [SyncM.bind]
  rw [hm]
  exact hf

theorem updateIssue_allOk (n : Nat) (u : IssueUpdate) (st : RState) :
    updateIssueM n u allOk st
      = (.ok (), reqStep st (patchedRemote u n st.remote) (.updateIssue n u)) := by
  simp only [updateIssueM]
  rw [mkReq_ok _ _ allOk st rfl]
  rfl

theorem createIssue_allOk (ti bo : String) (ls as : List String) (st : RState) :
    createIssueM ti bo ls as allOk st
      = (.ok (), reqStep st (extendedRemote st.remote ti bo ls as)
          (.createIssue ti bo ls as)) := by
  simp only [createIssueM]
  rw [mkReq_ok _ _ allOk st rfl]
  rfl

theorem createLabel_allOk (n c : String) (st : RState) :
    createLabelM n c allOk st
      = (.ok (), reqStep st (labeledRemote st.remote n c) (.createLabel n c)) := by
  simp only [createLabelM]
  rw [mkReq_ok _ _ allOk st rfl]
  rfl

theorem ensureLabels_noop (ex : List GHLabel) :
    ∀ (ls : List String) (o : Oracle) (st : RState),
      (∀ s ∈ ls, hasLabel ex s = true) →
      ensureLabelsM ex ls o st = (.ok (), st) := by
  intro ls
  induction ls with
  | nil => intro o st _; rfl
  | cons s rest ih =>
    intro o st h
    simp only [ensureLabelsM]
    rw [if_pos (h s (by simp))]
    exact ih o st (fun s' hs' => h s' (by simp [hs']))

theorem ensureLabels_post :
    ∀ (ls : List String) (ex : List GHLabel) (st : RState),
      (∀ l ∈ ex, l ∈ st.remote.labels) →
      (∀ s ∈ ls, jsToLower s = s) →
      ∃ st' : RState,
        ensureLabelsM ex ls allOk st = (.ok (), st') ∧
        st'.remote.issues = st.remote.issues ∧
        (∀ l ∈ st.remote.labels, l ∈ st'.remote.labels) ∧
        (∀ s ∈ ls, hasLabel st'.remote.labels s = true) := by
  intro ls
  induction ls with
  | nil =>
    intro ex st _ _
    exact ⟨st, rfl, rfl, fun l h => h, by simp⟩
  | cons s rest ih =>
    intro ex st hsub hlow
    by_cases hc : hasLabel ex s
    · obtain ⟨st', h1, hiss, hgrow, hhas⟩ :=
        ih ex st hsub (fun s' hs' => hlow s' (by simp [hs']))
      refine ⟨st', ?_, hiss, hgrow, ?_⟩
      · simp only [ensureLabelsM]
        rw [if_pos hc]
        exact h1
      · intro s' hs'
        rcases List.mem_cons.mp hs' with rfl | hm
        · obtain ⟨l, hlmem, hlk⟩ := List.any_eq_true.mp hc
          exact hasLabel_of_mem _ l s' (hgrow l (hsub l hlmem)) hlk
        · exact hhas s' hm
    · have hsub2 : ∀ l ∈ ex,
          l ∈ (labeledRemote st.remote s (colorFor s)).labels :=
        fun l hl => List.mem_append_left _ (hsub l hl)
      obtain ⟨st', h1, hiss, hgrow, hhas⟩ :=
        ih ex (reqStep st (labeledRemote st.remote s (colorFor s))
            (.createLabel s (colorFor s)))
          hsub2 (fun s' hs' => hlow s' (by simp [hs']))
      refine ⟨st', ?_, hiss, ?_, ?_⟩
      · simp only [ensureLabelsM]
        rw [if_neg hc]
        exact bind_eq_of _ _ allOk st _ () (createLabel_allOk s (colorFor s) st) _ h1
      · intro l hl
        exact hgrow l (List.mem_append_left _ hl)
      · intro s' hs'
        rcases List.mem_cons.mp hs' with rfl | hm
        · refine hasLabel_of_mem _ { name := s', color := colorFor s' } s'
            (hgrow _ (List.mem_append_right _ (List.mem_singleton.mpr rfl))) ?_
          have hl2 : jsToLower s' = s' := hlow s' (by simp)
          simp [hl2]
        · exact hhas s' hm

theorem pushTask_allOk_post (users : List User) (ex : List GHIssue)
    (upd : List GHLabel) (t : KTask) (st : RState)
    (hinv : ∀ i ∈ ex, titlePresent st.remote i.title) :
    ∃ st' : RState,
      pushTaskM users ex upd t allOk st = (.ok (), st') ∧
      st'.remote.labels = st.remote.labels ∧
      titlePresent st'.remote t.title ∧
      (∀ s, titlePresent st.remote s → titlePresent st'.remote s) := by
  cases hf : ex.find? (fun i => i.title == t.title) with
  | some issue =>
    have htitle : issue.title = t.title := by
      have := List.find?_some hf
      simpa using this
    have hmem : issue ∈ ex := List.mem_of_find?_eq_some hf
    have hstep : pushTaskM users ex upd t allOk st
        = updateIssueM issue.number (pushUpdatePayload users upd t) allOk st := by
      simp only [pushTaskM]
      rw [hf]
      rfl
    rw [hstep, updateIssue_allOk]
    have hpres : ∀ s, titlePresent st.remote s →
        titlePresent (patchedRemote (pushUpdatePayload users upd t)
          issue.number st.remote) s := by
      intro s hs
      obtain ⟨j, hj, hjt, hjp⟩ := hs
      refine ⟨_, List.mem_map_of_mem _ hj, ?_, ?_⟩
      · by_cases h : j.number = issue.number <;> simp [h, applyUpdate, hjt]
      · by_cases h : j.number = issue.number <;> simp [h, applyUpdate, hjp]
    exact ⟨_, rfl, rfl, hpres t.title (htitle ▸ hinv issue hmem), hpres⟩
  | none =>
    have hstep : pushTaskM users ex upd t allOk st
        = createIssueM t.title (formatTaskBody t)
            (((lookupLabelName upd (getStatusLabel t.status)).toList).filter
              (fun s => ! s == ("")))
            (if t.assignee = ("") then []
             else ((getAssigneeLogin users t.assignee).toList).filter
               (fun s => ! s == (""))) allOk st := by
      simp only [pushTaskM]
      rw [hf]
    rw [hstep, createIssue_allOk]
    refine ⟨_, rfl, rfl, ?_, ?_⟩
    · exact ⟨mkIssue st.remote t.title (formatTaskBody t) _ _,
        List.mem_append_right _ (List.mem_singleton.mpr rfl), rfl, rfl⟩
    · intro s hs
      obtain ⟨j, hj, hjt, hjp⟩ := hs
      exact ⟨j, List.mem_append_left _ hj, hjt, hjp⟩

theorem pushTasksM_allOk_post (users : List User) (ex : List GHIssue)
    (upd : List GHLabel) :
    ∀ (tasks : List KTask) (st : RState),
      (∀ i ∈ ex, titlePresent st.remote i.title) →
      ∃ st' : RState,
        pushTasksM users ex upd tasks allOk st = (.ok (), st') ∧
        st'.remote.labels = st.remote.labels ∧
        (∀ t ∈ tasks, titlePresent st'.remote t.title) ∧
        (∀ s, titlePresent st.remote s → titlePresent st'.remote s) := by
  intro tasks
  induction tasks with
  | nil =>
    intro st hinv
    exact ⟨st, rfl, rfl, by simp, fun s h => h⟩
  | cons t rest ih =>
    intro st hinv
    obtain ⟨st1, h1, hlab1, htp1, hpres1⟩ := pushTask_allOk_post users ex upd t st hinv
    obtain ⟨st2, h2, hlab2, hall2, hpres2⟩ := ih st1 (fun i hi => hpres1 _ (hinv i hi))
    refine ⟨st2, ?_, ?_, ?_, fun s hs => hpres2 s (hpres1 s hs)⟩
    · exact bind_eq_of _ _ allOk st st1 () h1 _ h2
    · rw [hlab2, hlab1]
    · intro t' ht'
      rcases List.mem_cons.mp ht' with rfl | hm
      · exact hpres2 _ htp1
      · exact hall2 t' hm

theorem pushBoardM_allOk_post (tasks : List KTask) (users : List User)
    (rem : RemoteState) :
    ∃ rs : RState,
      pushBoardM tasks users allOk { remote := rem, reqCount := 0, trace := [] }
        = (.ok { taskCount := tasks.length }, rs) ∧
      (∀ s ∈ statusLabels, hasLabel rs.remote.labels s = true) ∧
      (∀ t ∈ tasks, titlePresent rs.remote t.title) := by
  obtain ⟨st3, he, hiss3, hgrow3, hhas3⟩ :=
    ensureLabels_post statusLabels rem.labels
      { remote := rem, reqCount := 2, trace := [.getIssues, .getLabels] }
      (fun l hl => hl) (by decide)
  have hinv : ∀ i ∈ rem.issues.filter (fun i => ! i.pull_request),
      titlePresent (reqStep st3 st3.remote .getLabels).remote i.title := by
    intro i hi
    refine ⟨i, ?_, rfl, ?_⟩
    · show i ∈ st3.remote.issues
      rw [hiss3]
      exact List.mem_of_mem_filter hi
    · have := List.of_mem_filter hi
      simpa using this
  obtain ⟨st5, hp5, hlab5, hall5, hpres5⟩ :=
    pushTasksM_allOk_post users (rem.issues.filter (fun i => ! i.pull_request))
      st3.remote.labels tasks (reqStep st3 st3.remote .getLabels) hinv
  refine ⟨st5, ?_, ?_, hall5⟩
  · refine bind_eq_of _ _ allOk _ _ _ (mkReq_ok _ _ allOk _ rfl) _ ?_
    refine bind_eq_of _ _ allOk _ _ _ (mkReq_ok _ _ allOk _ rfl) _ ?_
    refine bind_eq_of _ _ allOk _ _ () he _ ?_
    refine bind_eq_of _ _ allOk _ _ _ (mkReq_ok _ _ allOk _ rfl) _ ?_
    exact bind_eq_of _ _ allOk _ _ () hp5 _ rfl
  · intro s hs
    rw [hlab5]
    exact hhas3 s hs

theorem pushTasksM_allOk_updates (users : List User) (ex : List GHIssue)
    (upd : List GHLabel) :
    ∀ (tasks : List KTask) (st : RState),
      (∀ t ∈ tasks, ∃ i ∈ ex, i.title = t.title) →
      ∃ (st' : RState) (entries : List RemoteReq),
        pushTasksM users ex upd tasks allOk st = (.ok (), st') ∧
        st'.trace = st.trace ++ entries ∧
        ∀ e ∈ entries, ∃ n u, e = .updateIssue n u := by
  intro tasks
  induction tasks with
  | nil =>
    intro st _
    exact ⟨st, [], rfl, (List.append_nil st.trace).symm, by simp⟩
  | cons t rest ih =>
    intro st hfind
    obtain ⟨i, hi, hit⟩ := hfind t (by simp)
    cases hf : ex.find? (fun j => j.title == t.title) with
    | none =>
      have hno := List.find?_eq_none.mp hf i hi
      exact absurd (by simp [hit]) hno
    | some issue =>
      have hstep : pushTaskM users ex upd t allOk st
          = updateIssueM issue.number (pushUpdatePayload users upd t) allOk st := by
        simp only [pushTaskM]
        rw [hf]
        rfl
      obtain ⟨st2, entries, h2, htr2, hupd2⟩ :=
        ih (reqStep st (patchedRemote (pushUpdatePayload users upd t)
              issue.number st.remote)
            (.updateIssue issue.number (pushUpdatePayload users upd t)))
          (fun t' ht' => hfind t' (by simp [ht']))
      refine ⟨st2, .updateIssue issue.number (pushUpdatePayload users upd t) :: entries,
        ?_, ?_, ?_⟩
      · refine bind_eq_of _ _ allOk st _ () ?_ _ h2
        rw [hstep, updateIssue_allOk]
      · rw [htr2]
        show (st.trace ++ [RemoteReq.updateIssue issue.number
          (pushUpdatePayload users upd t)]) ++ entries = _
        rw [List.append_assoc]
        rfl
      · intro e he
        rcases List.mem_cons.mp he with rfl | hm
        · exact ⟨issue.number, _, rfl⟩
        · exact hupd2 e hm

theorem pushBoardM_second (tasks : List KTask) (users : List User) (rem : RemoteState)
    (hlabels : ∀ s ∈ statusLabels, hasLabel rem.labels s = true)
    (htitles : ∀ t ∈ tasks, titlePresent rem t.title) :
    ∃ rs : RState,
      pushBoardM tasks users allOk { remote := rem, reqCount := 0, trace := [] }
        = (.ok { taskCount := tasks.length }, rs) ∧
      ∀ e ∈ rs.trace, isCreateReq e = false := by
  have hfind : ∀ t ∈ tasks,
      ∃ i ∈ rem.issues.filter (fun i => ! i.pull_request), i.title = t.title := by
    intro t ht
    obtain ⟨i, hi, hit, hpr⟩ := htitles t ht
    exact ⟨i, List.mem_filter.mpr ⟨hi, by simp [hpr]⟩, hit⟩
  obtain ⟨st5, entries, hp5, htr5, hupd5⟩ :=
    pushTasksM_allOk_updates users (rem.issues.filter (fun i => ! i.pull_request))
      rem.labels tasks
      { remote := rem, reqCount := 3, trace := [.getIssues, .getLabels, .getLabels] } hfind
  refine ⟨st5, ?_, ?_⟩
  · refine bind_eq_of _ _ allOk _ _ _ (mkReq_ok _ _ allOk _ rfl) _ ?_
    refine bind_eq_of _ _ allOk _ _ _ (mkReq_ok _ _ allOk _ rfl) _ ?_
    refine bind_eq_of _ _ allOk _ _ ()
      (ensureLabels_noop rem.labels statusLabels allOk _ hlabels) _ ?_
    refine bind_eq_of _ _ allOk _ _ _ (mkReq_ok _ _ allOk _ rfl) _ ?_
    exact bind_eq_of _ _ allOk _ _ () hp5 _ rfl
  · intro e he
    rw [htr5] at he
    rcases List.mem_append.mp he with hm | hm
    · rcases List.mem_cons.mp hm with rfl | hm
      · rfl
      rcases List.mem_cons.mp hm with rfl | hm
      · rfl
      rcases List.mem_cons.mp hm with rfl | hm
      · rfl
      · exact absurd hm (List.not_mem_nil e)
    · obtain ⟨n, u, rfl⟩ := hupd5 e hm
      rfl

theorem pushBoardApp_run (st : GBState) (r : Repo) (htok : ¬ st.accessToken = (""))
    (hrepo : st.selectedRepo = some r) (res : PushResult) (rs : RState)
    (h : pushBoardM st.localSt.tasks st.localSt.users allOk
        { remote := st.remote, reqCount := 0, trace := [] } = (.ok res, rs)) :
    pushBoardApp st allOk
      = ({ st with remote := rs.remote, syncStatus := ("success") }, .ok res, rs.trace) := by
  have h1 : pushBoardApp st allOk
      = (match pushBoardM st.localSt.tasks st.localSt.users allOk
            { remote := st.remote, reqCount := 0, trace := [] } with
         | (.ok res, rs) =>
           ({ st with remote := rs.remote, syncStatus := ("success") }, .ok res, rs.trace)
         | (.error e, rs) =>
           ({ st with remote := rs.remote, syncStatus := ("error") }, .error e, rs.trace)) := by
    simp only [pushBoardApp]
    rw [if_neg htok, hrepo]
  rw [h1, h]

/-- CLAIM C4.  Push idempotence: with a token and a selected repository,
pushing a task list twice over a responsive remote succeeds both times,
the first push leaves the local stores untouched, and during the second
push no createIssue and no createLabel request is issued — every task
title matches an existing issue, which is updated, and all four status
labels already exist. -/
theorem c4_push_idempotent (st : GBState) (r : Repo)
    (htok : ¬ st.accessToken = ("")) (hrepo : st.selectedRepo = some r) :
    ∃ (st1 : GBState) (tr1 tr2 : List RemoteReq) (st2 : GBState),
      pushBoardApp st allOk
          = (st1, .ok { taskCount := st.localSt.tasks.length }, tr1) ∧
      st1.localSt = st.localSt ∧
      pushBoardApp st1 allOk
          = (st2, .ok { taskCount := st.localSt.tasks.length }, tr2) ∧
      (∀ e ∈ tr2, isCreateReq e = false) := by
  obtain ⟨rs1, h1, hlab1, htit1⟩ :=
    pushBoardM_allOk_post st.localSt.tasks st.localSt.users st.remote
  have happ1 := pushBoardApp_run st r htok hrepo _ rs1 h1
  obtain ⟨rs2, h2, hnc2⟩ :=
    pushBoardM_second st.localSt.tasks st.localSt.users rs1.remote hlab1 htit1
  refine ⟨{ st with remote := rs1.remote, syncStatus := ("success") }, rs1.trace,
    rs2.trace, { st with remote := rs2.remote, syncStatus := ("success") },
    happ1, rfl, ?_, hnc2⟩
  exact pushBoardApp_run { st with remote := rs1.remote, syncStatus := ("success") }
    r htok hrepo _ rs2 h2

/-- Witness for CLAIM C4 at a concrete connected board. -/
theorem c4_push_idempotent_witness :
    ∃ (st1 : GBState) (tr1 tr2 : List RemoteReq) (st2 : GBState),
      pushBoardApp c4St allOk
          = (st1, .ok { taskCount := c4St.localSt.tasks.length }, tr1) ∧
      st1.localSt = c4St.localSt ∧
      pushBoardApp st1 allOk
          = (st2, .ok { taskCount := c4St.localSt.tasks.length }, tr2) ∧
      (∀ e ∈ tr2, isCreateReq e = false) :=
  c4_push_idempotent c4St { owner := ("o"), name := ("r") } (by decide) rfl
